import Mathlib

/-!
Verification of the `HyperScalePathResolver` / `SharedPathCache` / `FileWorkerPool`
subsystem of the ely-file-manager repository (src/src/utils/HyperCache/index.ts).

The TypeScript code is shallowly embedded:
* a JS `Map<string, {p, e}>` becomes an insertion-ordered association list
  (`JsMap`), since JS maps preserve insertion order, update values in place and
  append fresh keys at the end;
* `Date.now()` becomes an explicit `now : Int` argument at every call site;
* `Bun.hash.wyhash` and `Math.random` become explicit function parameters
  (`hash : String → Nat`, `rnd : Nat → Nat`; the source computes
  `Math.floor(Math.random() * len)`, embedded as `rnd i % len`);
* the async resolver is embedded as explicit state passing on `ResolverState`,
  with the filesystem-existence primitive as a parameter `fs : String → FsAnswer`.
-/

/-- A cache entry, `{ p: string; e: number }` in the source: resolved path and
expiration timestamp. -/
structure CEntry where
  p : String
  e : Int
deriving DecidableEq, Repr

/-- One cache shard: a JS `Map<string, CEntry>` embedded as an insertion-ordered
association list. -/
abbrev JsMap := List (String × CEntry)

/-- JS `Map.prototype.get`. -/
def jsGet : JsMap → String → Option CEntry
  | [], _ => none
  | (k', v) :: rest, k => if k' = k then some v else jsGet rest k

/-- JS `Map.prototype.set`: updates an existing key in place (keeping its
insertion position), otherwise appends at the end. -/
def jsSet : JsMap → String → CEntry → JsMap
  | [], k, v => [(k, v)]
  | (k', v') :: rest, k, v => if k' = k then (k, v) :: rest else (k', v') :: jsSet rest k v

/-- JS `Map.prototype.delete`: removes the entry for the key (keys are unique in
a JS map, so at most one entry matches; this removes the first). -/
def jsDelete : JsMap → String → JsMap
  | [], _ => []
  | (k', v') :: rest, k => if k' = k then rest else (k', v') :: jsDelete rest k

/-- The keys of a shard, in insertion order. -/
def keysOf (m : JsMap) : List String := m.map Prod.fst

/-- Well-formedness of a JS map: keys are unique. This is an invariant of every
real JS `Map`. -/
def JsMapWF (m : JsMap) : Prop := (keysOf m).Nodup

/-- Cumulative cache statistics `{ h, m, e }` (hits, misses, evictions). -/
structure CacheStats where
  h : Nat
  m : Nat
  e : Nat
deriving DecidableEq, Repr

/-- The state of `SharedPathCache`: 128 shards plus statistics. -/
structure CacheState where
  shards : List JsMap
  stats : CacheStats
deriving DecidableEq, Repr

namespace SharedPathCache

/-- `CACHE_SHARDS = 128`. -/
def CACHE_SHARDS : Nat := 128

/-- `SHARD_SIZE = 512`. -/
def SHARD_SIZE : Nat := 512

/-- `TTL_MS = 30000`. -/
def TTL_MS : Int := 30000

/-- The constructor: 128 pre-allocated empty shards, zeroed statistics. -/
def init : CacheState :=
  { shards := List.replicate CACHE_SHARDS [], stats := ⟨0, 0, 0⟩ }

/-- `getShard`: `Bun.hash.wyhash(key) & (CACHE_SHARDS - 1)`; for the power-of-two
shard count the bitmask equals reduction mod 128.  The hash itself is an
external primitive, passed in as `hash`. -/
def getShard (hash : String → Nat) (key : String) : Nat :=
  hash key % CACHE_SHARDS

/-- `SharedPathCache.get` (lines 59-79): shard lookup; absent counts a miss;
present but `now > e` deletes the entry and counts an eviction; otherwise
counts a hit and returns the stored path. -/
def get (hash : String → Nat) (c : CacheState) (key : String) (now : Int) :
    Option String × CacheState :=
  let shardIndex := getShard hash key
  let shard := c.shards.getD shardIndex []
  match jsGet shard key with
  | none => (none, { c with stats := { c.stats with m := c.stats.m + 1 } })
  | some entry =>
    if now > entry.e then
      (none, { c with
        shards := c.shards.set shardIndex (jsDelete shard key),
        stats := { c.stats with e := c.stats.e + 1 } })
    else
      (some entry.p, { c with stats := { c.stats with h := c.stats.h + 1 } })

/-- `evictRandom` (lines 100-130).  For small shards (`size <= 32`) the first
key is deleted.  Otherwise four entries are sampled at indices
`rnd i % entries.length` (the source's `Math.floor(Math.random() * len)`) and
the sampled entry with the smallest expiration is evicted (`minExpire` starts
at `Infinity`, embedded by starting the fold from `none`).  Returns the new
shard and the number of evictions performed (added to `stats.e` by the caller).
A real call on an empty shard would fault in the source (`entries[i]` is
`undefined`); all call sites guarantee `size >= SHARD_SIZE > 0`, and the
embedding returns the shard unchanged in that unreachable case.
`evictSampleStep` is the body of the sampling loop. -/
def evictSampleStep (rnd : Nat → Nat) (entries : JsMap)
    (best : Option (String × Int)) (i : Nat) : Option (String × Int) :=
  let pick := entries.getD (rnd i % entries.length) ("", ⟨"", 0⟩)
  match best with
  | none => some (pick.1, pick.2.e)
  | some (bk, be) => if pick.2.e < be then some (pick.1, pick.2.e) else some (bk, be)

def evictRandom (rnd : Nat → Nat) (shard : JsMap) : JsMap × Nat :=
  if shard.length ≤ 32 then
    match shard with
    | [] => (shard, 0)
    | (k, _) :: _ => (jsDelete shard k, 1)
  else
    match (List.range 4).foldl (evictSampleStep rnd shard) none with
    | some (k, _) => (jsDelete shard k, 1)
    | none => (shard, 0)

/-- `SharedPathCache.set` (lines 84-95): evicts one entry when the owning shard
is at capacity, then stores `{ p := path, e := now + ttl }`. -/
def set (hash : String → Nat) (rnd : Nat → Nat) (c : CacheState)
    (key path : String) (ttlMs now : Int) : CacheState :=
  let shardIndex := getShard hash key
  let shard := c.shards.getD shardIndex []
  let evicted := if shard.length ≥ SHARD_SIZE then evictRandom rnd shard else (shard, 0)
  { c with
    shards := c.shards.set shardIndex (jsSet evicted.1 key ⟨path, now + ttlMs⟩),
    stats := { c.stats with e := c.stats.e + evicted.2 } }

/-- One iteration of the `cleanup` loop body (lines 140-157) for a chosen
shard index: collect the keys of expired entries, delete them, and count each
deletion as an eviction. -/
def cleanupShardPass (now : Int) (acc : CacheState) (shardIndex : Nat) : CacheState :=
  let shard := acc.shards.getD shardIndex []
  let keysToDelete := (shard.filter (fun kv => now > kv.2.e)).map Prod.fst
  let shard' := keysToDelete.foldl (fun m k => jsDelete m k) shard
  { acc with
    shards := acc.shards.set shardIndex shard',
    stats := { acc.stats with e := acc.stats.e + keysToDelete.length } }

/-- `cleanup` (lines 135-159): scans 16 randomly chosen shards (indices
`rnd i % CACHE_SHARDS`), collecting and deleting the expired entries of
each. -/
def cleanup (rnd : Nat → Nat) (c : CacheState) (now : Int) : CacheState :=
  (List.range 16).foldl
    (fun acc i => cleanupShardPass now acc (rnd i % CACHE_SHARDS))
    c

end SharedPathCache

/-- Well-formedness of the whole cache: every shard has unique keys. -/
def CacheWF (c : CacheState) : Prop := ∀ s ∈ c.shards, JsMapWF s

section JsMapLemmas

theorem jsGet_set_self (m : JsMap) (k : String) (v : CEntry) :
    jsGet (jsSet m k v) k = some v := by
  induction m with
  | nil => simp [jsSet, jsGet]
  | cons hd tl ih =>
    obtain ⟨k', v'⟩ := hd
    by_cases hk : k' = k <;> simp [jsSet, jsGet, hk, ih]

theorem jsGet_set_ne (m : JsMap) (k k' : String) (v : CEntry) (h : k' ≠ k) :
    jsGet (jsSet m k v) k' = jsGet m k' := by
  have hne : ¬ k = k' := fun hE => h hE.symm
  induction m with
  | nil => simp [jsSet, jsGet, hne]
  | cons hd tl ih =>
    obtain ⟨k₀, v₀⟩ := hd
    by_cases hk : k₀ = k
    · subst hk
      simp [jsSet, jsGet, hne]
    · simp [jsSet, jsGet, hk, ih]

theorem jsGet_isSome_iff_mem_keys (m : JsMap) (k : String) :
    (jsGet m k).isSome ↔ k ∈ keysOf m := by
  induction m with
  | nil => simp [jsGet, keysOf]
  | cons hd tl ih =>
    obtain ⟨k', v'⟩ := hd
    by_cases hk : k' = k
    · subst hk
      simp [jsGet, keysOf]
    · simp only [jsGet, if_neg hk, keysOf, List.map_cons, List.mem_cons]
      rw [ih]
      simp only [keysOf]
      constructor
      · intro h; exact Or.inr h
      · rintro (h | h)
        · exact absurd h.symm hk
        · exact h

theorem keysOf_set_of_absent (m : JsMap) (k : String) (v : CEntry)
    (h : jsGet m k = none) : keysOf (jsSet m k v) = keysOf m ++ [k] := by
  induction m with
  | nil => simp [jsSet, keysOf]
  | cons hd tl ih =>
    obtain ⟨k', v'⟩ := hd
    by_cases hk : k' = k
    · simp [jsGet, hk] at h
    · simp [jsGet, hk] at h
      simp [jsSet, keysOf, hk] at ih ⊢
      exact ih h

theorem length_set_of_absent (m : JsMap) (k : String) (v : CEntry)
    (h : jsGet m k = none) : (jsSet m k v).length = m.length + 1 := by
  have := keysOf_set_of_absent m k v h
  have h1 : (keysOf (jsSet m k v)).length = (keysOf m ++ [k]).length := by rw [this]
  simpa [keysOf] using h1

theorem length_set_of_present (m : JsMap) (k : String) (v : CEntry)
    (h : (jsGet m k).isSome) : (jsSet m k v).length = m.length := by
  induction m with
  | nil => simp [jsGet] at h
  | cons hd tl ih =>
    obtain ⟨k', v'⟩ := hd
    by_cases hk : k' = k
    · simp [jsSet, hk]
    · simp [jsGet, hk] at h
      simp [jsSet, hk, ih h]

theorem keysOf_set_of_present (m : JsMap) (k : String) (v : CEntry)
    (h : (jsGet m k).isSome) : keysOf (jsSet m k v) = keysOf m := by
  induction m with
  | nil => simp [jsGet] at h
  | cons hd tl ih =>
    obtain ⟨k', v'⟩ := hd
    by_cases hk : k' = k
    · subst hk
      simp [jsSet, keysOf]
    · simp [jsGet, hk] at h
      simp [jsSet, keysOf, hk] at ih ⊢
      exact ih h

theorem length_set_le (m : JsMap) (k : String) (v : CEntry) :
    (jsSet m k v).length ≤ m.length + 1 := by
  cases h : jsGet m k with
  | none => simp [length_set_of_absent m k v h]
  | some e => simp [length_set_of_present m k v (by simp [h])]

theorem jsDelete_sublist (m : JsMap) (k : String) : (jsDelete m k).Sublist m := by
  induction m with
  | nil => simp [jsDelete]
  | cons hd tl ih =>
    obtain ⟨k', v'⟩ := hd
    by_cases hk : k' = k
    · simp only [jsDelete, if_pos hk]
      exact List.sublist_cons_self (k', v') tl
    · simp only [jsDelete, if_neg hk]
      exact List.Sublist.cons₂ (k', v') ih

theorem length_delete_of_present (m : JsMap) (k : String)
    (h : (jsGet m k).isSome) : (jsDelete m k).length + 1 = m.length := by
  induction m with
  | nil => simp [jsGet] at h
  | cons hd tl ih =>
    obtain ⟨k', v'⟩ := hd
    by_cases hk : k' = k
    · simp [jsDelete, hk]
    · simp [jsGet, hk] at h
      simp [jsDelete, hk, ih h]

theorem jsGet_delete_self (m : JsMap) (k : String) (hwf : JsMapWF m) :
    jsGet (jsDelete m k) k = none := by
  induction m with
  | nil => simp [jsDelete, jsGet]
  | cons hd tl ih =>
    obtain ⟨k', v'⟩ := hd
    rw [JsMapWF, keysOf] at hwf
    simp only [List.map_cons, List.nodup_cons] at hwf
    by_cases hk : k' = k
    · subst hk
      have habs : jsGet tl k' = none := by
        cases h : jsGet tl k' with
        | none => rfl
        | some e =>
          exfalso
          have hmem : k' ∈ keysOf tl :=
            (jsGet_isSome_iff_mem_keys tl k').mp (by simp [h])
          exact hwf.1 (by simpa [keysOf] using hmem)
      simpa [jsDelete] using habs
    · simp only [jsDelete, if_neg hk, jsGet, hk, if_false]
      exact ih hwf.2

theorem jsSet_wf (m : JsMap) (k : String) (v : CEntry) (hwf : JsMapWF m) :
    JsMapWF (jsSet m k v) := by
  cases h : jsGet m k with
  | none =>
    have hkeys := keysOf_set_of_absent m k v h
    rw [JsMapWF, hkeys]
    have hk : k ∉ keysOf m := by
      intro hmem
      have := (jsGet_isSome_iff_mem_keys m k).mpr hmem
      simp [h] at this
    simpa [List.nodup_append] using ⟨hwf, hk⟩
  | some e =>
    have hkeys := keysOf_set_of_present m k v (by simp [h])
    rw [JsMapWF, hkeys]
    exact hwf

theorem jsDelete_wf (m : JsMap) (k : String) (hwf : JsMapWF m) :
    JsMapWF (jsDelete m k) := by
  have hs : (keysOf (jsDelete m k)).Sublist (keysOf m) :=
    List.Sublist.map Prod.fst (jsDelete_sublist m k)
  exact List.Nodup.sublist hs hwf

theorem jsDelete_of_absent (m : JsMap) (k : String) (h : jsGet m k = none) :
    jsDelete m k = m := by
  induction m with
  | nil => simp [jsDelete]
  | cons hd tl ih =>
    obtain ⟨k', v'⟩ := hd
    by_cases hk : k' = k
    · simp [jsGet, hk] at h
    · simp [jsGet, hk] at h
      simp [jsDelete, hk, ih h]

theorem jsGet_delete_ne (m : JsMap) (k k' : String) (h : k' ≠ k) :
    jsGet (jsDelete m k) k' = jsGet m k' := by
  induction m with
  | nil => simp [jsDelete]
  | cons hd tl ih =>
    obtain ⟨k₀, v₀⟩ := hd
    by_cases hk : k₀ = k
    · subst hk
      have hne : ¬ k₀ = k' := fun hE => h hE.symm
      simp [jsDelete, jsGet, hne]
    · simp only [jsDelete, if_neg hk, jsGet]
      by_cases hk' : k₀ = k' <;> simp [hk', ih]

theorem jsGet_delete_none_of_none (m : JsMap) (k k' : String)
    (h : jsGet m k' = none) : jsGet (jsDelete m k) k' = none := by
  by_cases hk : k' = k
  · subst hk
    rw [jsDelete_of_absent m k' h]
    exact h
  · rw [jsGet_delete_ne m k k' hk]
    exact h

end JsMapLemmas


section ListIndexLemmas

theorem getD_set_self {α : Type} (x d : α) :
    ∀ (l : List α) (i : Nat), i < l.length → (l.set i x).getD i d = x
  | [], i, h => absurd h (by simp)
  | _ :: _, 0, _ => rfl
  | _ :: l, i + 1, h => getD_set_self x d l i (by simpa using h)

theorem getD_set_ne {α : Type} (x d : α) :
    ∀ (l : List α) (i j : Nat), j ≠ i → (l.set i x).getD j d = l.getD j d
  | [], _, _, _ => by simp
  | _ :: _, 0, 0, h => absurd rfl h
  | _ :: _, 0, _ + 1, _ => rfl
  | _ :: _, _ + 1, 0, _ => rfl
  | _ :: l, i + 1, j + 1, h =>
    getD_set_ne x d l i j (fun hE => h (by omega))

theorem getD_mem_of_lt {α : Type} (d : α) :
    ∀ (l : List α) (i : Nat), i < l.length → l.getD i d ∈ l
  | [], i, h => absurd h (by simp)
  | a :: _, 0, _ => by simp [List.getD]
  | a :: l, i + 1, h => by
    have := getD_mem_of_lt d l i (by simpa using h)
    simp only [List.getD] at this ⊢
    exact List.mem_cons_of_mem a this

end ListIndexLemmas

section EvictLemmas

/-- The sampling fold inside `evictRandom` always lands on a key of the shard:
starting from `none` over a nonempty index list it produces `some`, and every
`some` it produces carries a key of `entries`. -/
theorem evict_fold_some_mem (rnd : Nat → Nat) (entries : JsMap)
    (hne : 0 < entries.length) :
    ∀ (l : List Nat) (acc : Option (String × Int)),
      (∀ p, acc = some p → p.1 ∈ keysOf entries) →
      (acc.isSome ∨ l ≠ []) →
      ∃ p, l.foldl (SharedPathCache.evictSampleStep rnd entries) acc = some p ∧
        p.1 ∈ keysOf entries := by
  intro l
  induction l with
  | nil =>
    intro acc hacc hor
    rcases hor with hs | hne'
    · cases h : acc with
      | none => rw [h] at hs; simp at hs
      | some p => exact ⟨p, by simpa using hacc p h⟩
    · exact absurd rfl hne'
  | cons i rest ih =>
    intro acc hacc _
    have hpickmem : entries.getD (rnd i % entries.length) ("", ⟨"", 0⟩) ∈ entries :=
      getD_mem_of_lt _ entries _ (Nat.mod_lt _ hne)
    have hpickkey :
        (entries.getD (rnd i % entries.length) ("", ⟨"", 0⟩)).1 ∈ keysOf entries :=
      List.mem_map_of_mem Prod.fst hpickmem
    simp only [List.foldl_cons]
    apply ih
    · intro p hp
      cases hacc' : acc with
      | none =>
        rw [hacc'] at hp
        simp only [SharedPathCache.evictSampleStep] at hp
        have hp' := Option.some.inj hp
        rw [← hp']
        exact hpickkey
      | some q =>
        obtain ⟨qk, qe⟩ := q
        rw [hacc'] at hp
        simp only [SharedPathCache.evictSampleStep] at hp
        by_cases hlt :
            (entries.getD (rnd i % entries.length) ("", ⟨"", 0⟩)).2.e < qe
        · rw [if_pos hlt] at hp
          have hp' := Option.some.inj hp
          rw [← hp']
          exact hpickkey
        · rw [if_neg hlt] at hp
          have hp' := Option.some.inj hp
          rw [← hp']
          exact hacc (qk, qe) hacc'
    · left
      cases acc with
      | none => simp [SharedPathCache.evictSampleStep]
      | some q =>
        obtain ⟨qk, qe⟩ := q
        simp only [SharedPathCache.evictSampleStep]
        split <;> simp

/-- `evictRandom` on a nonempty shard removes exactly one entry and reports
exactly one eviction. -/
theorem evictRandom_length (rnd : Nat → Nat) (shard : JsMap)
    (hne : 0 < shard.length) :
    (SharedPathCache.evictRandom rnd shard).1.length + 1 = shard.length ∧
      (SharedPathCache.evictRandom rnd shard).2 = 1 := by
  rw [SharedPathCache.evictRandom.eq_def]
  by_cases hsmall : shard.length ≤ 32
  · rw [if_pos hsmall]
    match shard, hne with
    | (k, v) :: rest, _ =>
      constructor
      · have : (jsGet ((k, v) :: rest) k).isSome := by simp [jsGet]
        exact length_delete_of_present _ k this
      · rfl
  · rw [if_neg hsmall]
    obtain ⟨p, hfold, hmem⟩ :=
      evict_fold_some_mem rnd shard hne (List.range 4) none
        (by intro p hp; simp at hp) (Or.inr (by simp))
    obtain ⟨pk, pe⟩ := p
    rw [hfold]
    constructor
    · have : (jsGet shard pk).isSome := (jsGet_isSome_iff_mem_keys shard pk).mpr hmem
      exact length_delete_of_present _ pk this
    · rfl

/-- `evictRandom` preserves key uniqueness of the shard. -/
theorem evictRandom_wf (rnd : Nat → Nat) (shard : JsMap) (hwf : JsMapWF shard) :
    JsMapWF (SharedPathCache.evictRandom rnd shard).1 := by
  rw [SharedPathCache.evictRandom.eq_def]
  by_cases hsmall : shard.length ≤ 32
  · rw [if_pos hsmall]
    match shard with
    | [] => exact hwf
    | (k, v) :: rest => exact jsDelete_wf _ k hwf
  · rw [if_neg hsmall]
    cases hb : (List.range 4).foldl (SharedPathCache.evictSampleStep rnd shard) none with
    | none => simpa using hwf
    | some p =>
      obtain ⟨pk, pe⟩ := p
      simpa using jsDelete_wf shard pk hwf

end EvictLemmas

section CacheLemmas

theorem shardIndex_lt (hash : String → Nat) (key : String) :
    SharedPathCache.getShard hash key < SharedPathCache.CACHE_SHARDS :=
  Nat.mod_lt _ (by decide)

theorem jsMapWF_nil : JsMapWF [] := by simp [JsMapWF, keysOf]

theorem shard_wf_of_cacheWF (c : CacheState) (i : Nat) (hwf : CacheWF c) :
    JsMapWF (c.shards.getD i []) := by
  by_cases h : i < c.shards.length
  · exact hwf _ (getD_mem_of_lt [] c.shards i h)
  · rw [List.getD_eq_default _ _ (by omega)]
    exact jsMapWF_nil

/-- `SharedPathCache.set` preserves key uniqueness of every shard. -/
theorem cacheWF_set (hash : String → Nat) (rnd : Nat → Nat) (c : CacheState) (k v : String)
    (ttl now : Int) (hwf : CacheWF c) :
    CacheWF (SharedPathCache.set hash rnd c k v ttl now) := by
  intro s hs
  simp only [SharedPathCache.set] at hs
  rcases List.mem_or_eq_of_mem_set hs with hmem | heq
  · exact hwf s hmem
  · subst heq
    apply jsSet_wf
    split
    · exact evictRandom_wf rnd _ (shard_wf_of_cacheWF c _ hwf)
    · exact shard_wf_of_cacheWF c _ hwf

theorem cacheWF_init : CacheWF SharedPathCache.init := by
  intro s hs
  rw [List.eq_of_mem_replicate hs]
  exact jsMapWF_nil

end CacheLemmas

/-- C1 (cache TTL semantics): after `set(k, v, ttl)` at time `now₀` with
`ttl ≥ 0`, a `get(k)` at a time `now ≤ now₀ + ttl` returns `v` and increments
only the hit counter, while a `get(k)` at a time `now > now₀ + ttl` returns
absent, removes `k` from its shard, and increments the eviction counter by
one. -/
theorem cache_ttl_semantics (hash : String → Nat) (rnd : Nat → Nat) (c : CacheState)
    (k v : String) (ttl now₀ now : Int) (c₁ : CacheState)
    (hwf : CacheWF c) (hlen : c.shards.length = SharedPathCache.CACHE_SHARDS)
    (_httl : 0 ≤ ttl) (hc₁ : c₁ = SharedPathCache.set hash rnd c k v ttl now₀) :
    (now ≤ now₀ + ttl →
      SharedPathCache.get hash c₁ k now =
        (some v, { c₁ with stats := { c₁.stats with h := c₁.stats.h + 1 } })) ∧
    (now₀ + ttl < now →
      (SharedPathCache.get hash c₁ k now).1 = none ∧
      jsGet ((SharedPathCache.get hash c₁ k now).2.shards.getD
        (SharedPathCache.getShard hash k) []) k = none ∧
      (SharedPathCache.get hash c₁ k now).2.stats.e = c₁.stats.e + 1) := by
  subst hc₁
  have hidx : SharedPathCache.getShard hash k < c.shards.length := by
    rw [hlen]; exact shardIndex_lt hash k
  have hshard :
      (SharedPathCache.set hash rnd c k v ttl now₀).shards.getD
        (SharedPathCache.getShard hash k) [] =
      jsSet (if (c.shards.getD (SharedPathCache.getShard hash k) []).length ≥
              SharedPathCache.SHARD_SIZE
             then SharedPathCache.evictRandom rnd
               (c.shards.getD (SharedPathCache.getShard hash k) [])
             else (c.shards.getD (SharedPathCache.getShard hash k) [], 0)).1
        k ⟨v, now₀ + ttl⟩ := by
    simp only [SharedPathCache.set]
    exact getD_set_self _ _ _ _ hidx
  have hlookup :
      jsGet ((SharedPathCache.set hash rnd c k v ttl now₀).shards.getD
        (SharedPathCache.getShard hash k) []) k = some ⟨v, now₀ + ttl⟩ := by
    rw [hshard]
    exact jsGet_set_self _ _ _
  have hwfshard : JsMapWF ((SharedPathCache.set hash rnd c k v ttl now₀).shards.getD
      (SharedPathCache.getShard hash k) []) := by
    rw [hshard]
    apply jsSet_wf
    split
    · exact evictRandom_wf rnd _ (shard_wf_of_cacheWF c _ hwf)
    · exact shard_wf_of_cacheWF c _ hwf
  constructor
  · intro hnow
    rw [SharedPathCache.get]
    simp only [hlookup]
    rw [if_neg (by omega)]
  · intro hnow
    rw [SharedPathCache.get]
    simp only [hlookup]
    rw [if_pos (by omega)]
    refine ⟨rfl, ?_, rfl⟩
    have hlen' : SharedPathCache.getShard hash k <
        (SharedPathCache.set hash rnd c k v ttl now₀).shards.length := by
      simp only [SharedPathCache.set, List.length_set]
      exact hidx
    rw [getD_set_self _ _ _ _ hlen']
    exact jsGet_delete_self _ k hwfshard

/-- Witness for C1 at concrete inputs: key "k" cached at time 0 with ttl 10 is
returned at time 5 and gone at time 11. -/
theorem cache_ttl_semantics_witness :
    (SharedPathCache.get (fun _ => 0)
      (SharedPathCache.set (fun _ => 0) (fun _ => 0) SharedPathCache.init "k" "v" 10 0)
      "k" 5).1 = some "v" ∧
    (SharedPathCache.get (fun _ => 0)
      (SharedPathCache.set (fun _ => 0) (fun _ => 0) SharedPathCache.init "k" "v" 10 0)
      "k" 11).1 = none := by
  have hlen : SharedPathCache.init.shards.length = SharedPathCache.CACHE_SHARDS := by
    simp [SharedPathCache.init]
  constructor
  · rw [(cache_ttl_semantics (fun _ => 0) (fun _ => 0) SharedPathCache.init "k" "v" 10 0 5 _
      cacheWF_init hlen (by decide) rfl).1 (by decide)]
  · exact ((cache_ttl_semantics (fun _ => 0) (fun _ => 0) SharedPathCache.init "k" "v" 10 0 11 _
      cacheWF_init hlen (by decide) rfl).2 (by decide)).1

section CapacityLemmas

theorem evictRandom_get_none (rnd : Nat → Nat) (m : JsMap) (k : String)
    (h : jsGet m k = none) :
    jsGet (SharedPathCache.evictRandom rnd m).1 k = none := by
  rw [SharedPathCache.evictRandom.eq_def]
  by_cases hsmall : m.length ≤ 32
  · rw [if_pos hsmall]
    match m with
    | [] => exact h
    | (k₀, v₀) :: rest => exact jsGet_delete_none_of_none _ _ _ h
  · rw [if_neg hsmall]
    cases hb : (List.range 4).foldl (SharedPathCache.evictSampleStep rnd m) none with
    | none => simpa using h
    | some p =>
      obtain ⟨pk, pe⟩ := p
      simpa using jsGet_delete_none_of_none m pk k h

theorem init_shard_empty (i : Nat) : SharedPathCache.init.shards.getD i [] = [] := by
  by_cases h : i < SharedPathCache.init.shards.length
  · have := getD_mem_of_lt [] SharedPathCache.init.shards i h
    exact List.eq_of_mem_replicate this
  · exact List.getD_eq_default _ _ (by omega)

/-- Filling a shard below capacity with fresh keys: no eviction happens, the
shard grows by one entry per inserted key, and keys that were absent and are
not inserted stay absent. -/
theorem fill_aux (hash : String → Nat) (rnd : Nat → Nat) (v : String)
    (ttl now : Int) (i₀ : Nat) (hi₀ : i₀ < SharedPathCache.CACHE_SHARDS) :
    ∀ (ks : List String) (c : CacheState),
      (∀ k ∈ ks, SharedPathCache.getShard hash k = i₀) →
      c.shards.length = SharedPathCache.CACHE_SHARDS →
      (∀ k ∈ ks, jsGet (c.shards.getD i₀ []) k = none) →
      ks.Nodup →
      (c.shards.getD i₀ []).length + ks.length ≤ SharedPathCache.SHARD_SIZE →
      ((ks.foldl (fun acc k => SharedPathCache.set hash rnd acc k v ttl now) c).shards.getD
          i₀ []).length = (c.shards.getD i₀ []).length + ks.length ∧
      (ks.foldl (fun acc k => SharedPathCache.set hash rnd acc k v ttl now) c).stats =
        c.stats ∧
      (ks.foldl (fun acc k => SharedPathCache.set hash rnd acc k v ttl now) c).shards.length =
        SharedPathCache.CACHE_SHARDS ∧
      (∀ k₀, jsGet (c.shards.getD i₀ []) k₀ = none → k₀ ∉ ks →
        jsGet ((ks.foldl (fun acc k => SharedPathCache.set hash rnd acc k v ttl now) c).shards.getD
          i₀ []) k₀ = none) := by
  intro ks
  induction ks with
  | nil =>
    intro c _ hclen habs _ hcap
    exact ⟨by simp, rfl, hclen, fun k₀ h _ => h⟩
  | cons k rest ih =>
    intro c hsh hclen habs hnd hcap
    have hki₀ : SharedPathCache.getShard hash k = i₀ := hsh k (by simp)
    have hrest : ∀ k' ∈ rest, SharedPathCache.getShard hash k' = i₀ :=
      fun k' hk' => hsh k' (by simp [hk'])
    have habsk : jsGet (c.shards.getD i₀ []) k = none := habs k (by simp)
    have hnocap : ¬ ((c.shards.getD i₀ []).length ≥ SharedPathCache.SHARD_SIZE) := by
      have : 0 < (k :: rest).length := by simp
      simp only [List.length_cons] at hcap
      omega
    have hi₀' : i₀ < c.shards.length := by rw [hclen]; exact hi₀
    have hstep : (SharedPathCache.set hash rnd c k v ttl now).shards.getD i₀ [] =
        jsSet (c.shards.getD i₀ []) k ⟨v, now + ttl⟩ := by
      simp only [SharedPathCache.set, hki₀, if_neg hnocap]
      exact getD_set_self _ _ _ _ hi₀'
    have hstepstats : (SharedPathCache.set hash rnd c k v ttl now).stats = c.stats := by
      simp only [SharedPathCache.set, hki₀, if_neg hnocap]
      rfl
    have hsteplen : (SharedPathCache.set hash rnd c k v ttl now).shards.length =
        SharedPathCache.CACHE_SHARDS := by
      simp only [SharedPathCache.set, List.length_set]
      exact hclen
    have hnd' : rest.Nodup := (List.nodup_cons.mp hnd).2
    have hknotin : k ∉ rest := (List.nodup_cons.mp hnd).1
    have hlennew : ((SharedPathCache.set hash rnd c k v ttl now).shards.getD i₀ []).length =
        (c.shards.getD i₀ []).length + 1 := by
      rw [hstep]
      exact length_set_of_absent _ _ _ habsk
    have habs' : ∀ k' ∈ rest,
        jsGet ((SharedPathCache.set hash rnd c k v ttl now).shards.getD i₀ []) k' = none := by
      intro k' hk'
      rw [hstep, jsGet_set_ne _ _ _ _ (fun hE => hknotin (by rw [← hE]; exact hk'))]
      exact habs k' (by simp [hk'])
    have hcap' : ((SharedPathCache.set hash rnd c k v ttl now).shards.getD i₀ []).length +
        rest.length ≤ SharedPathCache.SHARD_SIZE := by
      rw [hlennew]
      simp only [List.length_cons] at hcap
      omega
    obtain ⟨ih1, ih2, ih3, ih4⟩ :=
      ih (SharedPathCache.set hash rnd c k v ttl now) hrest hsteplen habs' hnd' hcap'
    refine ⟨?_, ?_, ih3, ?_⟩
    · simp only [List.foldl_cons]
      rw [ih1, hlennew]
      simp only [List.length_cons]
      omega
    · simp only [List.foldl_cons]
      rw [ih2, hstepstats]
    · intro k₀ habs₀ hnotin
      have hk₀ne : k₀ ≠ k := fun hE => hnotin (by simp [hE])
      have hk₀rest : k₀ ∉ rest := fun hE => hnotin (by simp [hE])
      simp only [List.foldl_cons]
      apply ih4
      · rw [hstep, jsGet_set_ne _ _ _ _ hk₀ne]
        exact habs₀
      · exact hk₀rest

end CapacityLemmas

/-- C2 (shard capacity invariant): `set` preserves the per-shard bound
`size <= 512` (eviction of exactly one entry runs first when a shard is at
capacity), and inserting 513 distinct keys which all map to shard 0 into a
fresh cache leaves that shard with exactly 512 entries and the eviction
counter at exactly 1. -/
theorem shard_capacity_invariant :
    (∀ (hash : String → Nat) (rnd : Nat → Nat) (c : CacheState) (k v : String)
      (ttl now : Int),
      (∀ s ∈ c.shards, s.length ≤ SharedPathCache.SHARD_SIZE) →
      ∀ s ∈ (SharedPathCache.set hash rnd c k v ttl now).shards,
        s.length ≤ SharedPathCache.SHARD_SIZE) ∧
    (∀ (hash : String → Nat) (rnd : Nat → Nat) (keys : List String) (v : String)
      (ttl now : Int),
      keys.Nodup → keys.length = 513 →
      (∀ k ∈ keys, SharedPathCache.getShard hash k = 0) →
      (((keys.foldl (fun acc k => SharedPathCache.set hash rnd acc k v ttl now)
          SharedPathCache.init).shards.getD 0 []).length = 512 ∧
        (keys.foldl (fun acc k => SharedPathCache.set hash rnd acc k v ttl now)
          SharedPathCache.init).stats.e = 1)) := by
  constructor
  · intro hash rnd c k v ttl now hbound s hs
    simp only [SharedPathCache.set] at hs
    rcases List.mem_or_eq_of_mem_set hs with hmem | heq
    · exact hbound s hmem
    · subst heq
      by_cases hcap : (c.shards.getD (SharedPathCache.getShard hash k) []).length ≥
          SharedPathCache.SHARD_SIZE
      · rw [if_pos hcap]
        have hshlen : (c.shards.getD (SharedPathCache.getShard hash k) []).length ≤
            SharedPathCache.SHARD_SIZE := by
          by_cases hidx : SharedPathCache.getShard hash k < c.shards.length
          · exact hbound _ (getD_mem_of_lt [] _ _ hidx)
          · rw [List.getD_eq_default _ _ (by omega)]
            simp [SharedPathCache.SHARD_SIZE]
        have hne : 0 < (c.shards.getD (SharedPathCache.getShard hash k) []).length := by
          have : (0 : Nat) < SharedPathCache.SHARD_SIZE := by decide
          omega
        have hev := (evictRandom_length rnd _ hne).1
        have := length_set_le
          (SharedPathCache.evictRandom rnd (c.shards.getD (SharedPathCache.getShard hash k) [])).1
          k ⟨v, now + ttl⟩
        omega
      · rw [if_neg hcap]
        have := length_set_le (c.shards.getD (SharedPathCache.getShard hash k) []) k
          ⟨v, now + ttl⟩
        simp only [ge_iff_le, not_le] at hcap
        dsimp only
        omega
  · intro hash rnd keys v ttl now hnd hlen513 hsh
    have hne : keys ≠ [] := by intro h; rw [h] at hlen513; simp at hlen513
    have hdecomp : keys = keys.dropLast ++ [keys.getLast hne] :=
      (List.dropLast_append_getLast hne).symm
    set ks₁ := keys.dropLast with hks₁
    set klast := keys.getLast hne with hklast
    have hlen₁ : ks₁.length = 512 := by
      rw [hks₁, List.length_dropLast, hlen513]
    have hnd' : (ks₁ ++ [klast]).Nodup := hdecomp ▸ hnd
    have hnotin : klast ∉ ks₁ := by
      rw [List.nodup_append] at hnd'
      intro hmem
      exact hnd'.2.2 hmem (by simp)
    have hnd₁ : ks₁.Nodup := (List.nodup_append.mp hnd').1
    have hsh₁ : ∀ k ∈ ks₁, SharedPathCache.getShard hash k = 0 := by
      intro k hk
      exact hsh k (hdecomp ▸ List.mem_append_left _ hk)
    have hshlast : SharedPathCache.getShard hash klast = 0 :=
      hsh klast (hdecomp ▸ List.mem_append_right _ (by simp))
    have hi₀ : (0 : Nat) < SharedPathCache.CACHE_SHARDS := by decide
    obtain ⟨h1, h2, h3, h4⟩ := fill_aux hash rnd v ttl now 0 hi₀ ks₁ SharedPathCache.init
      hsh₁ (by simp [SharedPathCache.init])
      (by intro k _; rw [init_shard_empty]; rfl)
      hnd₁
      (by rw [init_shard_empty, hlen₁]; simp [SharedPathCache.SHARD_SIZE])
    set c₁ := ks₁.foldl (fun acc k => SharedPathCache.set hash rnd acc k v ttl now)
      SharedPathCache.init with hc₁
    have hlenshard : (c₁.shards.getD 0 []).length = 512 := by
      rw [h1, init_shard_empty, hlen₁]
      simp
    have habslast : jsGet (c₁.shards.getD 0 []) klast = none := by
      apply h4
      · rw [init_shard_empty]; rfl
      · exact hnotin
    have hfold : keys.foldl (fun acc k => SharedPathCache.set hash rnd acc k v ttl now)
        SharedPathCache.init = SharedPathCache.set hash rnd c₁ klast v ttl now := by
      conv => rw [hdecomp]
      rw [List.foldl_append]
      simp
    rw [hfold]
    have hcap : (c₁.shards.getD 0 []).length ≥ SharedPathCache.SHARD_SIZE := by
      rw [hlenshard]; simp [SharedPathCache.SHARD_SIZE]
    have hnz : 0 < (c₁.shards.getD 0 []).length := by rw [hlenshard]; decide
    have hevlen := (evictRandom_length rnd _ hnz).1
    have hevcnt := (evictRandom_length rnd _ hnz).2
    have habsev : jsGet (SharedPathCache.evictRandom rnd (c₁.shards.getD 0 [])).1 klast = none :=
      evictRandom_get_none rnd _ klast habslast
    constructor
    · have hgetD : (SharedPathCache.set hash rnd c₁ klast v ttl now).shards.getD 0 [] =
          jsSet (SharedPathCache.evictRandom rnd (c₁.shards.getD 0 [])).1 klast
            ⟨v, now + ttl⟩ := by
        simp only [SharedPathCache.set, hshlast, if_pos hcap]
        exact getD_set_self _ _ _ _ (by rw [h3]; exact hi₀)
      rw [hgetD, length_set_of_absent _ _ _ habsev]
      omega
    · have : (SharedPathCache.set hash rnd c₁ klast v ttl now).stats.e =
          c₁.stats.e + (SharedPathCache.evictRandom rnd (c₁.shards.getD 0 [])).2 := by
        simp only [SharedPathCache.set, hshlast, if_pos hcap]
      rw [this, hevcnt, h2]
      rfl

/-- 513 pairwise-distinct keys, in the embedding realised as strings of
distinct lengths. -/
def natKey (n : Nat) : String := String.mk (List.replicate n 'a')

theorem natKey_injective : Function.Injective natKey := by
  intro a b h
  have hdata : List.replicate a 'a' = List.replicate b 'a' := congrArg String.data h
  have := congrArg List.length hdata
  simpa using this

def keys513 : List String := (List.range 513).map natKey

/-- Witness for C2's concrete scenario: 513 distinct keys into shard 0 leave
512 entries and exactly one eviction. -/
theorem shard_capacity_invariant_witness :
    ((keys513.foldl
        (fun acc k => SharedPathCache.set (fun _ => 0) (fun _ => 0) acc k "v" 30000 0)
        SharedPathCache.init).shards.getD 0 []).length = 512 ∧
    (keys513.foldl
        (fun acc k => SharedPathCache.set (fun _ => 0) (fun _ => 0) acc k "v" 30000 0)
        SharedPathCache.init).stats.e = 1 := by
  refine shard_capacity_invariant.2 (fun _ => 0) (fun _ => 0) keys513 "v" 30000 0 ?_ ?_ ?_
  · exact (List.nodup_range 513).map natKey_injective
  · simp [keys513]
  · intro k _
    simp [SharedPathCache.getShard]

/-! ## The resolver layer (`HyperScalePathResolver`, lines 480-811)

Errors observable by a caller.  The source has exception classes
`NotFoundException` and `FileAccessException`; every other `throw new Error(m)`
surfaces a plain `Error`, embedded as `RErr.generic m` and distinguishable
only by its message. -/

inductive RErr where
  | notFound (msg : String)
  | fileAccess (msg : String)
  | generic (msg : String)
deriving DecidableEq, Repr

/-- The answer of the external filesystem-existence primitive for one path:
the file exists, it does not exist, the primitive throws, or it never
responds. -/
inductive FsAnswer where
  | exist
  | notExist
  | raise (msg : String)
  | never
deriving DecidableEq, Repr

/-- `workerPoolOptions` (all fields optional in the source interface). -/
structure WorkerPoolOptions where
  numWorkers : Option Int := none
  maxConcurrentTasksPerWorker : Option Int := none
  workerTimeout : Option Int := none
  workerPath : Option String := none
deriving DecidableEq, Repr

/-- `HyperScalePathResolverConfig` (lines 480-493). -/
structure HyperScalePathResolverConfig where
  basePath : String
  cacheTTLMs : Int
  maxConcurrentChecks : Int
  unsafeAllowTraversal : Bool
  logErrors : Bool
  maxPendingRequests : Int
  workerPoolOptions : WorkerPoolOptions
deriving DecidableEq, Repr

/-- `Partial<HyperScalePathResolverConfig>`: every field may be absent. -/
structure PartialResolverConfig where
  basePath : Option String := none
  cacheTTLMs : Option Int := none
  maxConcurrentChecks : Option Int := none
  unsafeAllowTraversal : Option Bool := none
  logErrors : Option Bool := none
  maxPendingRequests : Option Int := none
  workerPoolOptions : Option WorkerPoolOptions := none
deriving DecidableEq, Repr

/-- `DEFAULT_CONFIG` (lines 496-508).  `numWorkers` depends on `cpus().length`,
passed in as `numCpus`. -/
def DEFAULT_CONFIG (numCpus : Int) : HyperScalePathResolverConfig where
  basePath := ""
  cacheTTLMs := 30000
  maxConcurrentChecks := 1500
  unsafeAllowTraversal := false
  logErrors := false
  maxPendingRequests := 15000
  workerPoolOptions :=
    { numWorkers := some (max 4 (min (numCpus * 2) 16))
      maxConcurrentTasksPerWorker := some 12
      workerTimeout := some 5000
      workerPath := none }

/-- `ensureTrailingSlash` (lines 513-516). -/
def ensureTrailingSlash (path : String) : String :=
  if path = "" then "/"
  else if path.endsWith "/" then path else path ++ "/"

/-- `validateCriticalConfig` (lines 521-577): merges the supplied fields over
the defaults; booleans by `=== true`, numbers only when nonnegative
(`cacheTTLMs`) or positive (the rest); `basePath` gets a trailing slash.
Embedding note: JS numbers that fail `isNaN` are embedded as `Int`, so the
`isNaN` guards have no counterpart. -/
def validateCriticalConfig (numCpus : Int) (config : PartialResolverConfig) :
    HyperScalePathResolverConfig :=
  let m := DEFAULT_CONFIG numCpus
  let m := match config.basePath with
    | some s => { m with basePath := ensureTrailingSlash s }
    | none => m
  let m := { m with
    unsafeAllowTraversal := config.unsafeAllowTraversal = some true,
    logErrors := config.logErrors = some true }
  let m := match config.cacheTTLMs with
    | some v => if 0 ≤ v then { m with cacheTTLMs := v } else m
    | none => m
  let m := match config.maxConcurrentChecks with
    | some v => if 0 < v then { m with maxConcurrentChecks := v } else m
    | none => m
  let m := match config.maxPendingRequests with
    | some v => if 0 < v then { m with maxPendingRequests := v } else m
    | none => m
  match config.workerPoolOptions with
  | none => m
  | some wp =>
    let o := m.workerPoolOptions
    let o := match wp.numWorkers with
      | some v => if 0 < v then { o with numWorkers := some v } else o
      | none => o
    let o := match wp.maxConcurrentTasksPerWorker with
      | some v => if 0 < v then { o with maxConcurrentTasksPerWorker := some v } else o
      | none => o
    let o := match wp.workerTimeout with
      | some v => if 0 < v then { o with workerTimeout := some v } else o
      | none => o
    let o := match wp.workerPath with
      | some s => { o with workerPath := some s }
      | none => o
    { m with workerPoolOptions := o }

/-- The JS spread `{ ...this.config, ...config }` used by `updateConfig`: every
field of the full config is present, fields present in the partial override.
The spread is shallow, so a supplied `workerPoolOptions` object replaces the
whole nested object. -/
def spreadConfig (full : HyperScalePathResolverConfig)
    (p : PartialResolverConfig) : PartialResolverConfig where
  basePath := some (p.basePath.getD full.basePath)
  cacheTTLMs := some (p.cacheTTLMs.getD full.cacheTTLMs)
  maxConcurrentChecks := some (p.maxConcurrentChecks.getD full.maxConcurrentChecks)
  unsafeAllowTraversal := some (p.unsafeAllowTraversal.getD full.unsafeAllowTraversal)
  logErrors := some (p.logErrors.getD full.logErrors)
  maxPendingRequests := some (p.maxPendingRequests.getD full.maxPendingRequests)
  workerPoolOptions := some (p.workerPoolOptions.getD full.workerPoolOptions)

/-! ## Path normalization (lines 601-661) -/

/-- JS `String.prototype.replace` with a global two-character pattern
(the source's `DOUBLE_SLASH_REGEX` and `DOT_DOT_REGEX`): scans left to right,
replacing each leftmost non-overlapping occurrence of the pair `a b` by `rep`.
`replaceGo` carries the scanner state: the one character read but not yet
emitted. -/
def replaceGo (a b : Char) (rep : List Char) : Option Char → List Char → List Char
  | none, [] => []
  | some c, [] => [c]
  | none, c :: rest => replaceGo a b rep (some c) rest
  | some c₁, c₂ :: rest =>
    if c₁ = a ∧ c₂ = b then rep ++ replaceGo a b rep none rest
    else c₁ :: replaceGo a b rep (some c₂) rest

def replacePair (a b : Char) (rep : List Char) (l : List Char) : List Char :=
  replaceGo a b rep none l

/-- Whether the adjacent pair `a b` occurs somewhere after a character `c₁`
already read. -/
def hasPairFrom (a b c₁ : Char) : List Char → Bool
  | [] => false
  | c₂ :: rest => (decide (c₁ = a ∧ c₂ = b)) || hasPairFrom a b c₂ rest

/-- Whether the adjacent pair `a b` occurs in the list (JS
`String.prototype.includes` with a two-character needle). -/
def hasPair (a b : Char) : List Char → Bool
  | [] => false
  | c :: rest => hasPairFrom a b c rest

/-- JS `String.prototype.includes` with a one-character needle. -/
def hasChar (ch : Char) (l : List Char) : Bool := l.any (fun c => c = ch)

/-- JS `String.prototype.trim`: strips whitespace from both ends. -/
def jsTrimChars (l : List Char) : List Char :=
  ((l.dropWhile Char.isWhitespace).reverse.dropWhile Char.isWhitespace).reverse

/-- `path.replace(DOUBLE_SLASH_REGEX, "/")`. -/
def collapseDoubleSlash (s : String) : String :=
  String.mk (replacePair '/' '/' ['/'] s.data)

/-- `path.replace(DOT_DOT_REGEX, "")`. -/
def removeDotDot (s : String) : String :=
  String.mk (replacePair '.' '.' [] s.data)

/-- `trim` on a `String`. -/
def jsTrim (s : String) : String := String.mk (jsTrimChars s.data)

/-- `HyperScalePathResolver.normalizePath` (lines 643-661): the fast path
returns the input unchanged when it contains none of "..", "//" and " ";
unsafe mode replaces "//" pairs and trims; safe mode first removes ".." pairs,
then replaces "//" pairs, then trims. -/
def normalizePath (config : HyperScalePathResolverConfig) (path : String) : String :=
  if path = "" then ""
  else if ¬ (hasPair '.' '.' path.data) ∧ ¬ (hasPair '/' '/' path.data) ∧
      ¬ (hasChar ' ' path.data) then path
  else if config.unsafeAllowTraversal then jsTrim (collapseDoubleSlash path)
  else jsTrim (collapseDoubleSlash (removeDotDot path))

/-! ## Resolver state and the resolution flow -/

/-- A queued `PendingRequest` (lines 590-596).  The source also stores the
`resolve`/`reject` callbacks of the suspended promise; in the embedding the
outcome of a call is returned explicitly, so only the data fields remain. -/
structure PendingReq where
  path : String
  priority : Int
  timestamp : Int
deriving DecidableEq, Repr

/-- The mutable state of a `HyperScalePathResolver` instance.
`workerPoolAvailable` embeds `this.workerPool !== null` (the pool is created in
the constructor and set to `null` when construction fails or after
shutdown). -/
structure ResolverState where
  cache : CacheState
  config : HyperScalePathResolverConfig
  workerPoolAvailable : Bool
  activeRequests : Nat
  pendingRequests : List PendingReq
  requestsRejectedDueToOverload : Nat
  isShuttingDown : Bool
deriving DecidableEq, Repr

/-- `updateConfig` (lines 638-640):
`this.config = validateCriticalConfig({ ...this.config, ...config })`. -/
def updateConfig (numCpus : Int) (st : ResolverState)
    (config : PartialResolverConfig) : ResolverState :=
  { st with config := validateCriticalConfig numCpus (spreadConfig st.config config) }

/-- The outcome of the synchronous prefix of `getWorkingFilePath`: an
immediate error, a cache hit, the request queued, or processing started for
the normalized path. -/
inductive GWOutcome where
  | errored (e : RErr)
  | hit (p : String)
  | queued
  | startProcessing (np : String)
deriving DecidableEq, Repr

/-- The throttling step of `getWorkingFilePath` (lines 698-719): at the
concurrency ceiling the request is queued, unless the pending queue is full,
in which case the call fails with the overload error and the rejection counter
increments; below the ceiling processing starts. -/
def throttleStep (st : ResolverState) (np : String) (priority now : Int) :
    GWOutcome × ResolverState :=
  if (st.activeRequests : Int) ≥ st.config.maxConcurrentChecks then
    if (st.pendingRequests.length : Int) ≥ st.config.maxPendingRequests then
      (GWOutcome.errored (RErr.generic
          ("System overloaded: Too many pending requests (" ++
            toString st.pendingRequests.length ++ ")")),
        { st with requestsRejectedDueToOverload := st.requestsRejectedDueToOverload + 1 })
    else
      (GWOutcome.queued,
        { st with pendingRequests := st.pendingRequests ++
            [{ path := np, priority := priority, timestamp := now }] })
  else
    (GWOutcome.startProcessing np, st)

/-- `getWorkingFilePath` (lines 680-720) up to its first suspension point:
shutdown check, `!path` check (`undefined` is `none`, and the empty string is
falsy too), normalization, cache consult (a cached empty string is falsy and
falls through to the throttle), then the throttle step. -/
def getWorkingFilePathStep (hash : String → Nat) (st : ResolverState)
    (path : Option String) (priority now : Int) : GWOutcome × ResolverState :=
  if st.isShuttingDown then
    (GWOutcome.errored (RErr.generic "System is shutting down"), st)
  else
    match path with
    | none => (GWOutcome.errored (RErr.notFound "File path not provided"), st)
    | some p =>
      if p = "" then (GWOutcome.errored (RErr.notFound "File path not provided"), st)
      else
        let np := normalizePath st.config p
        let got := SharedPathCache.get hash st.cache np now
        let st' := { st with cache := got.2 }
        match got.1 with
        | some cp =>
          if cp ≠ "" then (GWOutcome.hit cp, st')
          else throttleStep st' np priority now
        | none => throttleStep st' np priority now

/-- JS `x || d` for an optional number (`0` is falsy). -/
def jsOrInt (o : Option Int) (d : Int) : Int :=
  match o with
  | some v => if v = 0 then d else v
  | none => d

/-- The worker timeout the pool was constructed with
(`options.workerTimeout || 5000`, line 231). -/
def poolWorkerTimeout (config : HyperScalePathResolverConfig) : Int :=
  jsOrInt config.workerPoolOptions.workerTimeout 5000

/-- `directFileCheck` (lines 666-675): `Bun.file(path).exists()` against the
primitive; `none` when the primitive never responds (the await never
settles). -/
def directFileCheck (fs : String → FsAnswer) (path : String) :
    Option (Except RErr String) :=
  match fs path with
  | FsAnswer.exist => some (Except.ok path)
  | FsAnswer.notExist =>
    some (Except.error (RErr.notFound ("File does not exist: " ++ path)))
  | FsAnswer.raise m =>
    some (Except.error (RErr.fileAccess
      ("Error accessing file: " ++ path ++ ": " ++ m)))
  | FsAnswer.never => none

/-- JS `s || d` for strings (`""` is falsy), as in the worker's
`err.message || "Unknown error"`. -/
def jsOrString (s d : String) : String :=
  if s = "" then d else s

/-- A worker reply message: `{ path, workerId, taskId }` on success or
`{ error, workerId, taskId }` on failure (only the fields
`createWorkerMessageHandler` reads are kept). -/
inductive FileWorkerMsg where
  | pathMsg (path : String)
  | errorMsg (err : String)
deriving DecidableEq, Repr

/-- The `onmessage` body of `file-worker.ts` (staged in
src/src/controllers/auth/dto/index.ts, the document after the separator):
for a task `{ path, workerId, taskId }` the worker awaits
`Bun.file(path).exists()` — the filesystem primitive — and posts back
`{ path, workerId, taskId }` on existence and
`{ error: "File does not exist: " + path, workerId, taskId }` otherwise; a
thrown error is caught and posted as
`{ error: err.message || "Unknown error", workerId, taskId }`.  `none` when
the existence check never settles, so the worker never replies. -/
def fileWorkerReply (fs : String → FsAnswer) (path : String) :
    Option FileWorkerMsg :=
  match fs path with
  | FsAnswer.exist => some (FileWorkerMsg.pathMsg path)
  | FsAnswer.notExist =>
    some (FileWorkerMsg.errorMsg ("File does not exist: " ++ path))
  | FsAnswer.raise m =>
    some (FileWorkerMsg.errorMsg (jsOrString m "Unknown error"))
  | FsAnswer.never => none

/-- The outcome of `FileWorkerPool.checkPath` for one dispatched task: the
worker's reply (`fileWorkerReply`) is delivered to
`createWorkerMessageHandler` (lines 274-304), which rejects a truthy
`result.error` as `new Error(result.error)` — a plain `Error`
(`RErr.generic`), since only the message string crosses the worker channel —
and resolves a truthy `result.path`; a reply with neither (an empty string in
the field) settles nothing, and since the handler has already cleared the
per-task timeout and released the slot, the promise hangs (`none`).  When the
worker never replies, the per-task timer (lines 404-412) rejects with the
plain timeout `Error` after `workerTimeout` ms. -/
def pooledCheck (fs : String → FsAnswer) (workerTimeout : Int) (path : String) :
    Option (Except RErr String) :=
  match fileWorkerReply fs path with
  | some (FileWorkerMsg.errorMsg m) =>
    if m = "" then none else some (Except.error (RErr.generic m))
  | some (FileWorkerMsg.pathMsg p) =>
    if p = "" then none else some (Except.ok p)
  | none => some (Except.error (RErr.generic
      ("Worker task timed out after " ++ toString workerTimeout ++ "ms")))

/-- The comparator of the pending-queue sort (lines 760-763): descending
priority, then ascending timestamp. -/
def pendingBefore (a b : PendingReq) : Bool :=
  if a.priority ≠ b.priority then b.priority < a.priority else a.timestamp < b.timestamp

/-- A stable sort by `pendingBefore` standing in for JS
`Array.prototype.sort` (stable since ES2019). -/
def insertPending (r : PendingReq) : List PendingReq → List PendingReq
  | [] => [r]
  | x :: xs => if pendingBefore x r then x :: insertPending r xs else r :: x :: xs

def sortPending (l : List PendingReq) : List PendingReq :=
  l.foldr insertPending []

/-- The tail of `processPathRequest`'s `finally` block (lines 756-774):
decrement happens in the caller; if not shutting down and requests are
pending, sort when some priority is positive, then shift the next request,
which a microtask will process.  Returns the state with the request removed
and the dequeued request. -/
def pendingQueueOrder (st : ResolverState) : List PendingReq :=
  if st.pendingRequests.length > 1 ∧ st.pendingRequests.any (fun r => r.priority > 0)
  then sortPending st.pendingRequests else st.pendingRequests

def dequeueNext (st : ResolverState) : ResolverState × Option PendingReq :=
  if ¬ st.isShuttingDown ∧ st.pendingRequests ≠ [] then
    match pendingQueueOrder st with
    | [] => (st, none)
    | r :: rest => ({ st with pendingRequests := rest }, some r)
  else (st, none)

/-- The existence check of `processPathRequest` (lines 737-741): the pooled
check when a worker pool is present, the direct check otherwise. -/
def checkResult (fs : String → FsAnswer) (st : ResolverState) (fullPath : String) :
    Option (Except RErr String) :=
  if st.workerPoolAvailable then
    pooledCheck fs (poolWorkerTimeout st.config) fullPath
  else directFileCheck fs fullPath

/-- `processPathRequest` (lines 723-776).  Increments `activeRequests`, checks
shutdown, builds `fullPath = basePath + normalizedPath`, runs the pooled or
the direct check, caches the resolved path on success, maps any non-`NotFound`
failure to `FileAccessException("Error accessing file: " + normalizedPath)`,
then in `finally` decrements the counter and dequeues the next pending
request.  Returns `(settled result or none if the call hangs, state, dequeued
request)`; when the check hangs the `finally` block is never reached. -/
def processPathRequest (hash : String → Nat) (rnd : Nat → Nat)
    (fs : String → FsAnswer) (st : ResolverState) (np : String) (now : Int) :
    Option (Except RErr String) × ResolverState × Option PendingReq :=
  let st₁ := { st with activeRequests := st.activeRequests + 1 }
  let body : Option (Except RErr String × ResolverState) :=
    if st₁.isShuttingDown then
      some (Except.error (RErr.generic "System is shutting down"), st₁)
    else
      let fullPath := st₁.config.basePath ++ np
      match checkResult fs st₁ fullPath with
      | none => none
      | some (Except.ok p) =>
        some (Except.ok p,
          { st₁ with cache :=
              SharedPathCache.set hash rnd st₁.cache np p st₁.config.cacheTTLMs now })
      | some (Except.error e) => some (Except.error e, st₁)
  match body with
  | none => (none, st₁, none)
  | some (result, st₂) =>
    let result := match result with
      | Except.ok p => Except.ok p
      | Except.error (RErr.notFound m) => Except.error (RErr.notFound m)
      | Except.error _ =>
        Except.error (RErr.fileAccess ("Error accessing file: " ++ np))
    let st₃ := { st₂ with activeRequests := st₂.activeRequests - 1 }
    let dq := dequeueNext st₃
    (some result, dq.1, dq.2)

/-- One full resolution call when it settles without suspension:
`getWorkingFilePath` followed, on `startProcessing`, by `processPathRequest`.
`none` stands for a call that has not settled (queued, or hung on a
never-responding direct check). -/
def resolveOnce (hash : String → Nat) (rnd : Nat → Nat) (fs : String → FsAnswer)
    (st : ResolverState) (path : Option String) (priority now : Int) :
    Option (Except RErr String) × ResolverState :=
  match getWorkingFilePathStep hash st path priority now with
  | (GWOutcome.errored e, st') => (some (Except.error e), st')
  | (GWOutcome.hit p, st') => (some (Except.ok p), st')
  | (GWOutcome.queued, st') => (none, st')
  | (GWOutcome.startProcessing np, st') =>
    let r := processPathRequest hash rnd fs st' np now
    (r.1, r.2.1)

/-- One arrival in the backpressure scenario: the synchronous prefix of a
resolution call against a never-responding filesystem.  When processing
starts, `processPathRequest` increments `activeRequests` and then suspends at
the await of the existence check; within the single tick of simultaneous
arrivals no check settles (no worker reply and no timer fires yet), so the
state keeps the increment. -/
def arrivalStep (hash : String → Nat) (st : ResolverState) (p : String)
    (priority now : Int) : GWOutcome × ResolverState :=
  match getWorkingFilePathStep hash st (some p) priority now with
  | (GWOutcome.startProcessing np, st') =>
    (GWOutcome.startProcessing np,
      { st' with activeRequests := st'.activeRequests + 1 })
  | other => other

/-- A sequence of simultaneous arrivals, interleaved in arrival order, none of
which completes (the filesystem primitive never responds). -/
def simulateArrivals (hash : String → Nat) (now : Int) :
    ResolverState → List String → List GWOutcome × ResolverState
  | st, [] => ([], st)
  | st, p :: rest =>
    let r := arrivalStep hash st p 0 now
    let rs := simulateArrivals hash now r.2 rest
    (r.1 :: rs.1, rs.2)

/-- The overload error thrown at line 703, recognisable by its message
starting with "System overloaded". -/
def isOverloadedError : RErr → Bool
  | RErr.generic m => "System overloaded".data.isPrefixOf m.data
  | _ => false

/-- The timeout rejection created at line 408, recognisable by its message. -/
def isTimeoutError : RErr → Bool
  | RErr.generic m => m.startsWith "Worker task timed out"
  | _ => false

section ResolverLemmas

theorem dequeueNext_frame (st : ResolverState) :
    (dequeueNext st).1.cache = st.cache ∧ (dequeueNext st).1.config = st.config ∧
    (dequeueNext st).1.activeRequests = st.activeRequests ∧
    (dequeueNext st).1.isShuttingDown = st.isShuttingDown ∧
    (dequeueNext st).1.workerPoolAvailable = st.workerPoolAvailable := by
  unfold dequeueNext
  split
  · split <;> exact ⟨rfl, rfl, rfl, rfl, rfl⟩
  · exact ⟨rfl, rfl, rfl, rfl, rfl⟩

/-- A cache hit: when the normalized key holds an unexpired entry with a
non-empty stored path, the synchronous prefix returns it directly. -/
theorem getWorkingFilePathStep_hit (hash : String → Nat) (st : ResolverState)
    (k v : String) (e priority now : Int)
    (hsd : st.isShuttingDown = false) (hk : k ≠ "") (hv : v ≠ "")
    (hget : jsGet (st.cache.shards.getD
      (SharedPathCache.getShard hash (normalizePath st.config k)) [])
      (normalizePath st.config k) = some ⟨v, e⟩)
    (hnow : now ≤ e) :
    (getWorkingFilePathStep hash st (some k) priority now).1 = GWOutcome.hit v := by
  rw [getWorkingFilePathStep]
  rw [hsd]
  simp only [Bool.false_eq_true, if_false]
  rw [if_neg hk]
  rw [SharedPathCache.get]
  simp only [hget]
  rw [if_neg (by omega)]
  simp [hv]

end ResolverLemmas

/-- C10 (frame property of `updateConfig`): `updateConfig` rewrites only the
`config` field — cache contents and statistics, the active-request counter,
the pending queue, the overload counter, the shutdown flag and the pool are
untouched; consequently, after `updateConfig` changes `basePath`, a resolve of
a key whose entry is still cached and unexpired is served from the cache and
returns the stored absolute path that was built with the old `basePath`. -/
theorem updateConfig_frame :
    (∀ (numCpus : Int) (st : ResolverState) (p : PartialResolverConfig),
      (updateConfig numCpus st p).cache = st.cache ∧
      (updateConfig numCpus st p).activeRequests = st.activeRequests ∧
      (updateConfig numCpus st p).pendingRequests = st.pendingRequests ∧
      (updateConfig numCpus st p).requestsRejectedDueToOverload =
        st.requestsRejectedDueToOverload ∧
      (updateConfig numCpus st p).isShuttingDown = st.isShuttingDown ∧
      (updateConfig numCpus st p).workerPoolAvailable = st.workerPoolAvailable) ∧
    (∀ (numCpus : Int) (hash : String → Nat) (st st' : ResolverState)
      (b k v : String) (e priority now : Int),
      st' = updateConfig numCpus st { basePath := some b } →
      st.isShuttingDown = false → k ≠ "" → v ≠ "" →
      jsGet (st.cache.shards.getD
        (SharedPathCache.getShard hash (normalizePath st'.config k)) [])
        (normalizePath st'.config k) = some ⟨v, e⟩ →
      now ≤ e →
      (getWorkingFilePathStep hash st' (some k) priority now).1 = GWOutcome.hit v) := by
  constructor
  · intro numCpus st p
    exact ⟨rfl, rfl, rfl, rfl, rfl, rfl⟩
  · intro numCpus hash st st' b k v e priority now hst hsd hk hv hget hnow
    subst hst
    exact getWorkingFilePathStep_hit hash _ k v e priority now hsd hk hv hget hnow

/-- A concrete resolver state used by witnesses and counterexamples: default
configuration (with `numCpus = 4`), fresh cache, worker pool present, idle. -/
def testState : ResolverState where
  cache := SharedPathCache.init
  config := DEFAULT_CONFIG 4
  workerPoolAvailable := true
  activeRequests := 0
  pendingRequests := []
  requestsRejectedDueToOverload := 0
  isShuttingDown := false

/-- Witness for C10: with key "k" cached as "/old/k" at expiry 100, changing
`basePath` to "/new" still serves "/old/k" from the cache at time 50. -/
theorem updateConfig_frame_witness :
    (updateConfig 4 { testState with cache :=
        { shards := (List.replicate 128 []).set 0 [("k", ⟨"/old/k", 100⟩)],
          stats := ⟨0, 0, 0⟩ } }
      { basePath := some "/new" }).cache =
      ({ shards := (List.replicate 128 []).set 0 [("k", ⟨"/old/k", 100⟩)],
         stats := ⟨0, 0, 0⟩ } : CacheState) ∧
    (getWorkingFilePathStep (fun _ => 0)
      (updateConfig 4 { testState with cache :=
        { shards := (List.replicate 128 []).set 0 [("k", ⟨"/old/k", 100⟩)],
          stats := ⟨0, 0, 0⟩ } }
        { basePath := some "/new" })
      (some "k") 0 50).1 = GWOutcome.hit "/old/k" := by
  constructor
  · exact (updateConfig_frame.1 4 { testState with cache :=
      { shards := (List.replicate 128 []).set 0 [("k", ⟨"/old/k", 100⟩)],
        stats := ⟨0, 0, 0⟩ } } { basePath := some "/new" }).1
  · exact updateConfig_frame.2 4 (fun _ => 0) _ _ "/new" "k" "/old/k" 100 0 50 rfl rfl
      (by decide) (by decide) (by decide) (by decide)

section ProcessLemmas

/-- On any settled failure, `processPathRequest` leaves the cache untouched:
the cache is written only on the success branch. -/
theorem processPathRequest_error_cache (hash : String → Nat) (rnd : Nat → Nat)
    (fs : String → FsAnswer) (st : ResolverState) (np : String) (now : Int)
    (e : RErr) :
    (processPathRequest hash rnd fs st np now).1 = some (Except.error e) →
    (processPathRequest hash rnd fs st np now).2.1.cache = st.cache := by
  unfold processPathRequest
  dsimp only
  by_cases hsd : st.isShuttingDown
  · rw [if_pos hsd]
    intro _
    exact (dequeueNext_frame _).1
  · rw [if_neg hsd]
    cases hchk : checkResult fs { st with activeRequests := st.activeRequests + 1 }
        (st.config.basePath ++ np) with
    | none =>
      dsimp only
      intro h
      simp at h
    | some r =>
      cases r with
      | ok p =>
        dsimp only
        intro h
        simp at h
      | error e' =>
        dsimp only
        intro _
        exact (dequeueNext_frame _).1

/-- The other components of the state after a settled `processPathRequest`:
config, shutdown flag, pool flag are untouched, and the active counter is back
to its pre-call value. -/
theorem processPathRequest_frame (hash : String → Nat) (rnd : Nat → Nat)
    (fs : String → FsAnswer) (st : ResolverState) (np : String) (now : Int)
    (r : Except RErr String) :
    (processPathRequest hash rnd fs st np now).1 = some r →
    ((processPathRequest hash rnd fs st np now).2.1.config = st.config ∧
      (processPathRequest hash rnd fs st np now).2.1.isShuttingDown = st.isShuttingDown ∧
      (processPathRequest hash rnd fs st np now).2.1.workerPoolAvailable =
        st.workerPoolAvailable ∧
      (processPathRequest hash rnd fs st np now).2.1.activeRequests =
        st.activeRequests) := by
  unfold processPathRequest
  dsimp only
  by_cases hsd : st.isShuttingDown
  · rw [if_pos hsd]
    intro _
    have hf := dequeueNext_frame ({ st with activeRequests := st.activeRequests + 1 - 1 } :
      ResolverState)
    exact ⟨hf.2.1, hf.2.2.2.1, hf.2.2.2.2, by rw [hf.2.2.1]; simp⟩
  · rw [if_neg hsd]
    cases hchk : checkResult fs { st with activeRequests := st.activeRequests + 1 }
        (st.config.basePath ++ np) with
    | none =>
      dsimp only
      intro h
      simp at h
    | some r' =>
      cases r' with
      | ok p =>
        dsimp only
        intro _
        refine ⟨(dequeueNext_frame _).2.1, (dequeueNext_frame _).2.2.2.1,
          (dequeueNext_frame _).2.2.2.2, ?_⟩
        rw [(dequeueNext_frame _).2.2.1]
        simp
      | error e' =>
        dsimp only
        intro _
        refine ⟨(dequeueNext_frame _).2.1, (dequeueNext_frame _).2.2.2.1,
          (dequeueNext_frame _).2.2.2.2, ?_⟩
        rw [(dequeueNext_frame _).2.2.1]
        simp

end ProcessLemmas

/-- A string append is nonempty when its left part is. -/
theorem append_ne_empty_of_left (a b : String) (h : a ≠ "") : a ++ b ≠ "" := by
  intro hc
  apply h
  cases a with
  | mk la =>
    cases b with
    | mk lb =>
      have hd : la ++ lb = [] := congrArg String.data hc
      have hla : la = [] := (List.append_eq_nil.mp hd).1
      rw [hla]

/-- A string append is nonempty when its right part is. -/
theorem append_ne_empty_of_right (a b : String) (h : b ≠ "") : a ++ b ≠ "" := by
  intro hc
  apply h
  cases a with
  | mk la =>
    cases b with
    | mk lb =>
      have hd : la ++ lb = [] := congrArg String.data hc
      have hlb : lb = [] := (List.append_eq_nil.mp hd).2
      rw [hlb]

/-- `jsOrString s d` is nonempty whenever the default is. -/
theorem jsOrString_ne_empty (s d : String) (hd : d ≠ "") : jsOrString s d ≠ "" := by
  unfold jsOrString
  split
  · exact hd
  · assumption

/-- A successful check: `processPathRequest` returns the full path and caches
it, for either check mode.  The full path must be nonempty: the worker posts
it back verbatim and `createWorkerMessageHandler` resolves only a truthy
`result.path`. -/
theorem processPathRequest_success (hash : String → Nat) (rnd : Nat → Nat)
    (fs : String → FsAnswer) (st : ResolverState) (np : String) (now : Int)
    (hsd : st.isShuttingDown = false)
    (hne : st.config.basePath ++ np ≠ "")
    (hfs : fs (st.config.basePath ++ np) = FsAnswer.exist) :
    (processPathRequest hash rnd fs st np now).1 =
      some (Except.ok (st.config.basePath ++ np)) ∧
    (processPathRequest hash rnd fs st np now).2.1.cache =
      SharedPathCache.set hash rnd st.cache np (st.config.basePath ++ np)
        st.config.cacheTTLMs now := by
  unfold processPathRequest
  dsimp only
  rw [if_neg (by rw [hsd]; simp)]
  have hchk : checkResult fs { st with activeRequests := st.activeRequests + 1 }
      (st.config.basePath ++ np) = some (Except.ok (st.config.basePath ++ np)) := by
    unfold checkResult
    dsimp only
    split
    · simp only [pooledCheck, fileWorkerReply, hfs]
      rw [if_neg hne]
    · simp only [directFileCheck, hfs]
  rw [hchk]
  dsimp only
  exact ⟨rfl, (dequeueNext_frame _).1⟩

/-- A cache miss below the concurrency ceiling: the synchronous prefix starts
processing immediately, bumping only the miss counter. -/
theorem getWorkingFilePathStep_miss_process (hash : String → Nat)
    (st : ResolverState) (k : String) (priority now : Int)
    (hsd : st.isShuttingDown = false) (hk : k ≠ "")
    (hmiss : jsGet (st.cache.shards.getD
      (SharedPathCache.getShard hash (normalizePath st.config k)) [])
      (normalizePath st.config k) = none)
    (hactive : (st.activeRequests : Int) < st.config.maxConcurrentChecks) :
    getWorkingFilePathStep hash st (some k) priority now =
      (GWOutcome.startProcessing (normalizePath st.config k),
        { st with cache := { st.cache with stats :=
          { st.cache.stats with m := st.cache.stats.m + 1 } } }) := by
  rw [getWorkingFilePathStep]
  rw [if_neg (by rw [hsd]; simp)]
  rw [if_neg hk]
  dsimp only
  rw [SharedPathCache.get]
  simp only [hmiss]
  rw [throttleStep]
  rw [if_neg (by dsimp only; omega)]

/-- C4 (negative results never cached): any failed `processPathRequest` leaves
the cache untouched, so an immediately following resolve of the same
normalized path performs a fresh filesystem check and succeeds once the file
exists. -/
theorem negative_results_not_cached :
    (∀ (hash : String → Nat) (rnd : Nat → Nat) (fs : String → FsAnswer)
      (st : ResolverState) (np : String) (now : Int) (e : RErr),
      (processPathRequest hash rnd fs st np now).1 = some (Except.error e) →
      (processPathRequest hash rnd fs st np now).2.1.cache = st.cache) ∧
    (∀ (hash : String → Nat) (rnd rnd₂ : Nat → Nat) (fs fs₂ : String → FsAnswer)
      (st st' : ResolverState) (np : String) (now now₂ priority : Int) (e : RErr),
      (processPathRequest hash rnd fs st np now).1 = some (Except.error e) →
      st' = (processPathRequest hash rnd fs st np now).2.1 →
      st.isShuttingDown = false →
      np ≠ "" →
      normalizePath st.config np = np →
      jsGet (st.cache.shards.getD (SharedPathCache.getShard hash np) []) np = none →
      (st.activeRequests : Int) < st.config.maxConcurrentChecks →
      fs₂ (st.config.basePath ++ np) = FsAnswer.exist →
      (resolveOnce hash rnd₂ fs₂ st' (some np) priority now₂).1 =
        some (Except.ok (st.config.basePath ++ np))) := by
  constructor
  · intro hash rnd fs st np now e herr
    exact processPathRequest_error_cache hash rnd fs st np now e herr
  · intro hash rnd rnd₂ fs fs₂ st st' np now now₂ priority e herr hst' hsd hnp hnorm
      hmiss hactive hfs₂
    have hframe := processPathRequest_frame hash rnd fs st np now _ herr
    have hcache := processPathRequest_error_cache hash rnd fs st np now e herr
    rw [← hst'] at hframe hcache
    have hcfg : st'.config = st.config := hframe.1
    have hsd' : st'.isShuttingDown = false := by rw [hframe.2.1]; exact hsd
    have hnorm' : normalizePath st'.config np = np := by rw [hcfg]; exact hnorm
    have hmiss' : jsGet (st'.cache.shards.getD
        (SharedPathCache.getShard hash (normalizePath st'.config np)) [])
        (normalizePath st'.config np) = none := by
      rw [hnorm', hcache]
      exact hmiss
    have hact' : (st'.activeRequests : Int) < st'.config.maxConcurrentChecks := by
      rw [hframe.2.2.2, hcfg]
      exact hactive
    have hstep := getWorkingFilePathStep_miss_process hash st' np priority now₂
      hsd' hnp hmiss' hact'
    rw [hnorm'] at hstep
    rw [resolveOnce, hstep]
    dsimp only
    have hsd'' : ({ st' with cache := { st'.cache with stats :=
        { st'.cache.stats with m := st'.cache.stats.m + 1 } } } :
        ResolverState).isShuttingDown = false := hsd'
    have hfs₂' : fs₂ (({ st' with cache := { st'.cache with stats :=
        { st'.cache.stats with m := st'.cache.stats.m + 1 } } } :
        ResolverState).config.basePath ++ np) = FsAnswer.exist := by
      show fs₂ (st'.config.basePath ++ np) = FsAnswer.exist
      rw [hcfg]
      exact hfs₂
    have hne'' : ({ st' with cache := { st'.cache with stats :=
        { st'.cache.stats with m := st'.cache.stats.m + 1 } } } :
        ResolverState).config.basePath ++ np ≠ "" := by
      show st'.config.basePath ++ np ≠ ""
      exact append_ne_empty_of_right _ _ hnp
    have hres := (processPathRequest_success hash rnd₂ fs₂ _ np now₂ hsd'' hne''
      hfs₂').1
    rw [hres]
    show some (Except.ok (st'.config.basePath ++ np)) = _
    rw [hcfg]

/-- Witness for C4: a not-found resolve of "x" against the default state
leaves the cache unchanged, and resolving "x" again once the file exists
succeeds with "x". -/
theorem negative_results_not_cached_witness :
    (processPathRequest (fun _ => 0) (fun _ => 0) (fun _ => FsAnswer.notExist)
      testState "x" 0).2.1.cache = testState.cache ∧
    (resolveOnce (fun _ => 0) (fun _ => 0) (fun _ => FsAnswer.exist)
      ((processPathRequest (fun _ => 0) (fun _ => 0) (fun _ => FsAnswer.notExist)
        testState "x" 0).2.1)
      (some "x") 0 1).1 = some (Except.ok (testState.config.basePath ++ "x")) := by
  constructor
  · exact negative_results_not_cached.1 (fun _ => 0) (fun _ => 0) _ testState "x" 0
      (RErr.fileAccess "Error accessing file: x") (by rfl)
  · exact negative_results_not_cached.2 (fun _ => 0) (fun _ => 0) (fun _ => 0) _
      (fun _ => FsAnswer.exist) testState _ "x" 0 1 0
      (RErr.fileAccess "Error accessing file: x") (by rfl) rfl rfl (by decide)
      (by decide) (by decide) (by decide) (by rfl)

/-- C5 amended (timeout behavior): when the pooled task never completes, the
per-task timer fires and the call settles — but the caller observes
`FileAccessException("Error accessing file: " + normalizedPath)`, because
`processPathRequest` re-wraps every non-`NotFoundException` failure, and the
pool's timeout rejection is a plain `Error`.  No distinct Timeout error kind
reaches the caller. -/
theorem worker_timeout_behavior (hash : String → Nat) (rnd : Nat → Nat)
    (fs : String → FsAnswer) (st : ResolverState) (np : String) (now : Int)
    (hpool : st.workerPoolAvailable = true) (hsd : st.isShuttingDown = false)
    (hfs : fs (st.config.basePath ++ np) = FsAnswer.never) :
    (processPathRequest hash rnd fs st np now).1 =
      some (Except.error (RErr.fileAccess ("Error accessing file: " ++ np))) := by
  unfold processPathRequest
  dsimp only
  rw [if_neg (by rw [hsd]; simp)]
  have hchk : checkResult fs { st with activeRequests := st.activeRequests + 1 }
      (st.config.basePath ++ np) = some (Except.error (RErr.generic
        ("Worker task timed out after " ++
          toString (poolWorkerTimeout st.config) ++ "ms"))) := by
    unfold checkResult
    dsimp only
    rw [if_pos hpool]
    simp only [pooledCheck, fileWorkerReply, hfs]
  rw [hchk]

/-- Counterexample to C5 as stated: at a concrete input whose pooled check
never completes, the call settles with `FileAccessException`, which is not the
timeout error kind (the code's only timeout error is the plain
"Worker task timed out after …" `Error`, and it never reaches the caller). -/
theorem worker_timeout_claim_counterexample :
    (processPathRequest (fun _ => 0) (fun _ => 0) (fun _ => FsAnswer.never)
      testState "x" 0).1 =
      some (Except.error (RErr.fileAccess "Error accessing file: x")) ∧
    isTimeoutError (RErr.fileAccess "Error accessing file: x") = false := by
  exact ⟨by rfl, by rfl⟩

/-- C6 amended (fallback semantics): with the same filesystem answers, the
pooled path and the direct in-line check agree on success for a nonempty full
path (same resolved path, same cache update) and on primitive failure (both
surface `FileAccessException("Error accessing file: " + normalizedPath)`);
but for a non-existent path they disagree: the direct check surfaces
`NotFoundException`, while the pooled path surfaces `FileAccessException`,
because the worker's failure crosses the message channel as a string and is
re-thrown as a plain `Error`, which the catch-all re-wraps. -/
theorem pooled_direct_fallback_semantics (hash : String → Nat) (rnd : Nat → Nat)
    (fs : String → FsAnswer) (st : ResolverState) (np : String) (now : Int)
    (hsd : st.isShuttingDown = false) :
    (fs (st.config.basePath ++ np) = FsAnswer.exist →
      st.config.basePath ++ np ≠ "" →
      (processPathRequest hash rnd fs { st with workerPoolAvailable := true }
        np now).1 = some (Except.ok (st.config.basePath ++ np)) ∧
      (processPathRequest hash rnd fs { st with workerPoolAvailable := false }
        np now).1 = some (Except.ok (st.config.basePath ++ np)) ∧
      (processPathRequest hash rnd fs { st with workerPoolAvailable := true }
        np now).2.1.cache =
      (processPathRequest hash rnd fs { st with workerPoolAvailable := false }
        np now).2.1.cache) ∧
    (∀ m, fs (st.config.basePath ++ np) = FsAnswer.raise m →
      (processPathRequest hash rnd fs { st with workerPoolAvailable := true }
        np now).1 =
        some (Except.error (RErr.fileAccess ("Error accessing file: " ++ np))) ∧
      (processPathRequest hash rnd fs { st with workerPoolAvailable := false }
        np now).1 =
        some (Except.error (RErr.fileAccess ("Error accessing file: " ++ np)))) ∧
    (fs (st.config.basePath ++ np) = FsAnswer.notExist →
      (processPathRequest hash rnd fs { st with workerPoolAvailable := true }
        np now).1 =
        some (Except.error (RErr.fileAccess ("Error accessing file: " ++ np))) ∧
      (processPathRequest hash rnd fs { st with workerPoolAvailable := false }
        np now).1 =
        some (Except.error (RErr.notFound
          ("File does not exist: " ++ (st.config.basePath ++ np))))) := by
  refine ⟨?_, ?_, ?_⟩
  · intro hfs hne
    have h₁ := processPathRequest_success hash rnd fs
      { st with workerPoolAvailable := true } np now hsd hne hfs
    have h₂ := processPathRequest_success hash rnd fs
      { st with workerPoolAvailable := false } np now hsd hne hfs
    exact ⟨h₁.1, h₂.1, by rw [h₁.2, h₂.2]⟩
  · intro m hfs
    constructor
    · unfold processPathRequest
      dsimp only
      rw [if_neg (by rw [hsd]; simp)]
      have hchk : checkResult fs
          { st with
            workerPoolAvailable := true
            activeRequests := st.activeRequests + 1 }
          (st.config.basePath ++ np) =
          some (Except.error (RErr.generic (jsOrString m "Unknown error"))) := by
        unfold checkResult
        dsimp only
        rw [if_pos rfl]
        simp only [pooledCheck, fileWorkerReply, hfs]
        rw [if_neg (jsOrString_ne_empty m "Unknown error" (by decide))]
      rw [hchk]
    · unfold processPathRequest
      dsimp only
      rw [if_neg (by rw [hsd]; simp)]
      have hchk : checkResult fs
          { st with
            workerPoolAvailable := false
            activeRequests := st.activeRequests + 1 }
          (st.config.basePath ++ np) = some (Except.error (RErr.fileAccess
            ("Error accessing file: " ++ (st.config.basePath ++ np) ++ ": " ++ m))) := by
        unfold checkResult
        dsimp only
        rw [if_neg (by simp)]
        simp only [directFileCheck, hfs]
      rw [hchk]
  · intro hfs
    constructor
    · unfold processPathRequest
      dsimp only
      rw [if_neg (by rw [hsd]; simp)]
      have hchk : checkResult fs
          { st with
            workerPoolAvailable := true
            activeRequests := st.activeRequests + 1 }
          (st.config.basePath ++ np) = some (Except.error (RErr.generic
            ("File does not exist: " ++ (st.config.basePath ++ np)))) := by
        unfold checkResult
        dsimp only
        rw [if_pos rfl]
        simp only [pooledCheck, fileWorkerReply, hfs]
        rw [if_neg (append_ne_empty_of_left _ _ (by decide))]
      rw [hchk]
    · unfold processPathRequest
      dsimp only
      rw [if_neg (by rw [hsd]; simp)]
      have hchk : checkResult fs
          { st with
            workerPoolAvailable := false
            activeRequests := st.activeRequests + 1 }
          (st.config.basePath ++ np) = some (Except.error (RErr.notFound
            ("File does not exist: " ++ (st.config.basePath ++ np)))) := by
        unfold checkResult
        dsimp only
        rw [if_neg (by simp)]
        simp only [directFileCheck, hfs]
      rw [hchk]

/-- Counterexample to C6 as stated: for a non-existent path the two resolution
modes do not produce the same error kind — the pooled path yields
`FileAccessException` where the direct check yields `NotFoundException`. -/
theorem pooled_direct_fallback_counterexample :
    (processPathRequest (fun _ => 0) (fun _ => 0) (fun _ => FsAnswer.notExist)
      { testState with workerPoolAvailable := true } "x" 0).1 =
      some (Except.error (RErr.fileAccess "Error accessing file: x")) ∧
    (processPathRequest (fun _ => 0) (fun _ => 0) (fun _ => FsAnswer.notExist)
      { testState with workerPoolAvailable := false } "x" 0).1 =
      some (Except.error (RErr.notFound "File does not exist: x")) ∧
    (RErr.fileAccess "Error accessing file: x" ≠
      RErr.notFound "File does not exist: x") := by
  exact ⟨by rfl, by rfl, by decide⟩

/-- Witness for C6's amended statement at concrete inputs. -/
theorem pooled_direct_fallback_witness :
    (processPathRequest (fun _ => 0) (fun _ => 0) (fun _ => FsAnswer.exist)
      { testState with workerPoolAvailable := true } "x" 0).1 =
      some (Except.ok "x") ∧
    (processPathRequest (fun _ => 0) (fun _ => 0) (fun _ => FsAnswer.exist)
      { testState with workerPoolAvailable := false } "x" 0).1 =
      some (Except.ok "x") := by
  have h := (pooled_direct_fallback_semantics (fun _ => 0) (fun _ => 0)
    (fun _ => FsAnswer.exist) testState "x" 0 rfl).1 rfl (by decide)
  exact ⟨h.1, h.2.1⟩

/-- Witness for C5's amended statement at a concrete input. -/
theorem worker_timeout_behavior_witness :
    (processPathRequest (fun _ => 0) (fun _ => 0) (fun _ => FsAnswer.never)
      testState "x" 0).1 =
      some (Except.error (RErr.fileAccess "Error accessing file: x")) :=
  worker_timeout_behavior (fun _ => 0) (fun _ => 0) (fun _ => FsAnswer.never)
    testState "x" 0 rfl rfl rfl

section NormalizeLemmas

theorem hasPairFrom_eq (a b c : Char) (l : List Char) :
    hasPairFrom a b c l =
      ((match l.head? with
        | some c₂ => decide (c = a ∧ c₂ = b)
        | none => false) || hasPair a b l) := by
  cases l with
  | nil => rfl
  | cons c₂ rest => rfl

theorem hasPair_cons (a b c : Char) (l : List Char) :
    hasPair a b (c :: l) = hasPairFrom a b c l := rfl

theorem hasPair_append_right (a b : Char) (y : List Char) :
    ∀ x, hasPair a b (x ++ y) = false → hasPair a b y = false := by
  intro x
  induction x with
  | nil => intro h; exact h
  | cons c x' ih =>
    intro h
    rw [List.cons_append, hasPair_cons, hasPairFrom_eq] at h
    simp only [Bool.or_eq_false_iff] at h
    exact ih h.2

theorem hasPair_append_left (a b : Char) (y : List Char) :
    ∀ x, hasPair a b (x ++ y) = false → hasPair a b x = false := by
  intro x
  induction x with
  | nil => intro _; rfl
  | cons c x' ih =>
    intro h
    rw [List.cons_append, hasPair_cons, hasPairFrom_eq] at h
    simp only [Bool.or_eq_false_iff] at h
    rw [hasPair_cons, hasPairFrom_eq]
    simp only [Bool.or_eq_false_iff]
    refine ⟨?_, ih h.2⟩
    cases hx : x' with
    | nil => rfl
    | cons c₂ rest =>
      have hhead : (x' ++ y).head? = some c₂ := by rw [hx]; rfl
      have h1 := h.1
      rw [hhead] at h1
      exact h1

theorem jsTrimChars_decomp (l : List Char) :
    ∃ x z, l = x ++ (jsTrimChars l ++ z) := by
  refine ⟨l.takeWhile Char.isWhitespace,
    ((l.dropWhile Char.isWhitespace).reverse.takeWhile Char.isWhitespace).reverse, ?_⟩
  conv_lhs => rw [← List.takeWhile_append_dropWhile (p := Char.isWhitespace) (l := l)]
  congr 1
  have hm : (l.dropWhile Char.isWhitespace).reverse =
      ((l.dropWhile Char.isWhitespace).reverse.takeWhile Char.isWhitespace) ++
        ((l.dropWhile Char.isWhitespace).reverse.dropWhile Char.isWhitespace) :=
    (List.takeWhile_append_dropWhile Char.isWhitespace
      (l.dropWhile Char.isWhitespace).reverse).symm
  calc l.dropWhile Char.isWhitespace
      = (l.dropWhile Char.isWhitespace).reverse.reverse :=
        (List.reverse_reverse _).symm
    _ = (((l.dropWhile Char.isWhitespace).reverse.takeWhile Char.isWhitespace) ++
          ((l.dropWhile Char.isWhitespace).reverse.dropWhile Char.isWhitespace)).reverse := by
        rw [← hm]
    _ = ((l.dropWhile Char.isWhitespace).reverse.dropWhile Char.isWhitespace).reverse ++
          ((l.dropWhile Char.isWhitespace).reverse.takeWhile Char.isWhitespace).reverse := by
        rw [List.reverse_append]

theorem hasPair_jsTrim (a b : Char) (l : List Char)
    (h : hasPair a b l = false) : hasPair a b (jsTrimChars l) = false := by
  obtain ⟨x, z, hx⟩ := jsTrimChars_decomp l
  rw [hx] at h
  have h1 := hasPair_append_right a b (jsTrimChars l ++ z) x h
  exact hasPair_append_left a b z (jsTrimChars l) h1

theorem replaceGo_slash_head (c : Char) (l : List Char) :
    (replaceGo '/' '/' ['/'] (some c) l).head? = some c := by
  cases l with
  | nil => rfl
  | cons c₂ rest =>
    rw [replaceGo]
    by_cases hc : c = '/' ∧ c₂ = '/'
    · rw [if_pos hc, hc.1]
      rfl
    · rw [if_neg hc]
      rfl

theorem replaceGo_dot_head (c : Char) (l : List Char) (hc : c ≠ '.') :
    (replaceGo '.' '.' [] (some c) l).head? = some c := by
  cases l with
  | nil => rfl
  | cons c₂ rest =>
    rw [replaceGo]
    rw [if_neg (fun hE => hc hE.1)]
    rfl

/-- `removeDotDot` leaves no ".." pair, from any scanner state. -/
theorem replaceGo_dot_noPair :
    ∀ (l : List Char) (held : Option Char),
      hasPair '.' '.' (replaceGo '.' '.' [] held l) = false := by
  intro l
  induction l with
  | nil =>
    intro held
    cases held with
    | none => rfl
    | some c => rfl
  | cons c₂ rest ih =>
    intro held
    cases held with
    | none =>
      rw [replaceGo]
      exact ih (some c₂)
    | some c =>
      rw [replaceGo]
      by_cases hm : c = '.' ∧ c₂ = '.'
      · rw [if_pos hm]
        rw [List.nil_append]
        exact ih none
      · rw [if_neg hm]
        rw [hasPair_cons, hasPairFrom_eq]
        simp only [Bool.or_eq_false_iff]
        refine ⟨?_, ih (some c₂)⟩
        by_cases hc₂ : c₂ = '.'
        · have hcne : c ≠ '.' := fun hE => hm ⟨hE, hc₂⟩
          cases hh : (replaceGo '.' '.' [] (some c₂) rest).head? with
          | none => rfl
          | some c₃ =>
            simp only
            simp [hcne]
        · rw [replaceGo_dot_head c₂ rest hc₂]
          simp only
          simp [hc₂]

/-- `collapseDoubleSlash` preserves the absence of "..", from any scanner
state consistent with the input. -/
theorem replaceGo_slash_noDotPair :
    ∀ (l : List Char),
      (∀ c, hasPairFrom '.' '.' c l = false →
        hasPair '.' '.' (replaceGo '/' '/' ['/'] (some c) l) = false) ∧
      (hasPair '.' '.' l = false →
        hasPair '.' '.' (replaceGo '/' '/' ['/'] none l) = false) := by
  intro l
  induction l with
  | nil =>
    refine ⟨?_, ?_⟩
    · intro c _
      rfl
    · intro _
      rfl
  | cons c₂ rest ih =>
    have hsome : ∀ c, hasPairFrom '.' '.' c (c₂ :: rest) = false →
        hasPair '.' '.' (replaceGo '/' '/' ['/'] (some c) (c₂ :: rest)) = false := by
      intro c hc
      rw [hasPairFrom] at hc
      simp only [Bool.or_eq_false_iff] at hc
      rw [replaceGo]
      by_cases hm : c = '/' ∧ c₂ = '/'
      · rw [if_pos hm]
        rw [List.singleton_append, hasPair_cons, hasPairFrom_eq]
        simp only [Bool.or_eq_false_iff]
        constructor
        · cases hh : (replaceGo '/' '/' ['/'] none rest).head? with
          | none => rfl
          | some c₃ => simp
        · have htail := hc.2
          rw [hasPairFrom_eq] at htail
          simp only [Bool.or_eq_false_iff] at htail
          exact ih.2 htail.2
      · rw [if_neg hm]
        rw [hasPair_cons, hasPairFrom_eq]
        simp only [Bool.or_eq_false_iff]
        refine ⟨?_, ih.1 c₂ hc.2⟩
        rw [replaceGo_slash_head c₂ rest]
        simp only
        have := hc.1
        simpa using this
    refine ⟨hsome, ?_⟩
    intro hl
    rw [replaceGo]
    exact ih.1 c₂ hl

/-- The collapse of a pure run of `n` slashes: each pass halves the run, so
`n` slashes become `n - n / 2` slashes, not one. -/
theorem collapse_replicate (n : Nat) :
    replaceGo '/' '/' ['/'] none (List.replicate n '/') =
      List.replicate (n - n / 2) '/' := by
  induction n using Nat.strong_induction_on with
  | _ n ih =>
    match n with
    | 0 => rfl
    | 1 => rfl
    | (m + 2) =>
      have h := ih m (by omega)
      have hstep : replaceGo '/' '/' ['/'] none (List.replicate (m + 2) '/') =
          '/' :: replaceGo '/' '/' ['/'] none (List.replicate m '/') := by
        rw [List.replicate_succ, List.replicate_succ]
        rw [replaceGo, replaceGo]
        rw [if_pos ⟨rfl, rfl⟩]
        rfl
      rw [hstep, h]
      have harith : (m + 2) - (m + 2) / 2 = (m - m / 2) + 1 := by omega
      rw [harith, List.replicate_succ]

theorem removeDotDot_replicate_slash (n : Nat) :
    replaceGo '.' '.' [] none (List.replicate n '/') = List.replicate n '/' := by
  have haux : ∀ (m : Nat) (c : Char), c ≠ '.' →
      replaceGo '.' '.' [] (some c) (List.replicate m '/') =
        c :: List.replicate m '/' := by
    intro m
    induction m with
    | zero => intro c _; rfl
    | succ k ihk =>
      intro c hc
      rw [List.replicate_succ, replaceGo]
      rw [if_neg (fun hE => hc hE.1)]
      rw [ihk '/' (by decide)]
  cases n with
  | zero => rfl
  | succ k =>
    rw [List.replicate_succ, replaceGo]
    rw [haux k '/' (by decide)]

theorem jsTrim_replicate_slash (n : Nat) :
    jsTrimChars (List.replicate n '/') = List.replicate n '/' := by
  have hdrop : (List.replicate n '/').dropWhile Char.isWhitespace =
      List.replicate n '/' := by
    cases n with
    | zero => rfl
    | succ k =>
      rw [List.replicate_succ, List.dropWhile_cons]
      rw [if_neg (by decide)]
  unfold jsTrimChars
  rw [hdrop, List.reverse_replicate]
  rw [hdrop, List.reverse_replicate]

end NormalizeLemmas

/-- C7 amended (normalization contract): in safe mode (the default) the
normalized output contains no ".." pair; duplicate-separator handling is a
single left-to-right pass replacing each non-overlapping "//" with "/", so a
run of `n ≥ 2` slashes becomes `n - n / 2` slashes (runs longer than two are
only halved, not collapsed to a single separator); and an `undefined` or empty
path fails immediately with `NotFoundException` before any normalization, with
the state untouched. -/
theorem normalization_contract :
    (∀ (config : HyperScalePathResolverConfig) (path : String),
      config.unsafeAllowTraversal = false →
      hasPair '.' '.' (normalizePath config path).data = false) ∧
    (∀ (config : HyperScalePathResolverConfig) (n : Nat), 2 ≤ n →
      normalizePath config (String.mk (List.replicate n '/')) =
        String.mk (List.replicate (n - n / 2) '/')) ∧
    (∀ (hash : String → Nat) (st : ResolverState) (priority now : Int),
      st.isShuttingDown = false →
      getWorkingFilePathStep hash st none priority now =
        (GWOutcome.errored (RErr.notFound "File path not provided"), st) ∧
      getWorkingFilePathStep hash st (some "") priority now =
        (GWOutcome.errored (RErr.notFound "File path not provided"), st)) := by
  refine ⟨?_, ?_, ?_⟩
  · intro config path hu
    rw [normalizePath]
    by_cases h0 : path = ""
    · rw [if_pos h0]
      rfl
    · rw [if_neg h0]
      by_cases hfast : ¬ (hasPair '.' '.' path.data) = true ∧
          ¬ (hasPair '/' '/' path.data) = true ∧ ¬ (hasChar ' ' path.data) = true
      · rw [if_pos hfast]
        simpa using hfast.1
      · rw [if_neg hfast, hu]
        rw [if_neg (by simp)]
        show hasPair '.' '.'
          (jsTrimChars (collapseDoubleSlash (removeDotDot path)).data) = false
        apply hasPair_jsTrim
        show hasPair '.' '.'
          (replaceGo '/' '/' ['/'] none (removeDotDot path).data) = false
        apply (replaceGo_slash_noDotPair (removeDotDot path).data).2
        show hasPair '.' '.' (replaceGo '.' '.' [] none path.data) = false
        exact replaceGo_dot_noPair path.data none
  · intro config n hn
    obtain ⟨k, rfl⟩ : ∃ k, n = k + 2 := ⟨n - 2, by omega⟩
    rw [normalizePath]
    have hne : ¬ (String.mk (List.replicate (k + 2) '/') = "") := by
      intro h
      have hdata := congrArg String.data h
      rw [List.replicate_succ] at hdata
      exact List.noConfusion hdata
    rw [if_neg hne]
    have hpp : hasPair '/' '/' (String.mk (List.replicate (k + 2) '/')).data = true := by
      show hasPair '/' '/' (List.replicate (k + 2) '/') = true
      rw [List.replicate_succ, List.replicate_succ]
      rw [hasPair_cons, hasPairFrom]
      simp
    rw [if_neg (by intro hc; exact hc.2.1 hpp)]
    by_cases hu : config.unsafeAllowTraversal
    · rw [if_pos hu]
      show String.mk (jsTrimChars
        (replaceGo '/' '/' ['/'] none (List.replicate (k + 2) '/'))) = _
      rw [collapse_replicate, jsTrim_replicate_slash]
    · rw [if_neg hu]
      show String.mk (jsTrimChars (replaceGo '/' '/' ['/'] none
        (replaceGo '.' '.' [] none (List.replicate (k + 2) '/')))) = _
      rw [removeDotDot_replicate_slash, collapse_replicate, jsTrim_replicate_slash]
  · intro hash st priority now hsd
    constructor
    · rw [getWorkingFilePathStep]
      rw [if_neg (by rw [hsd]; simp)]
    · rw [getWorkingFilePathStep]
      rw [if_neg (by rw [hsd]; simp)]
      rw [if_pos rfl]

/-- Counterexample to C7 as stated: "a///b" normalizes to "a//b" — the run of
three separators is not collapsed to a single '/' (the output still contains
"//"), in either traversal mode. -/
theorem normalization_contract_counterexample :
    normalizePath (DEFAULT_CONFIG 4) "a///b" = "a//b" ∧
    hasPair '/' '/' (normalizePath (DEFAULT_CONFIG 4) "a///b").data = true := by
  exact ⟨by rfl, by rfl⟩

/-- Witness for C7's amended statement at concrete inputs. -/
theorem normalization_contract_witness :
    hasPair '.' '.' (normalizePath (DEFAULT_CONFIG 4) "a/../b").data = false ∧
    normalizePath (DEFAULT_CONFIG 4) (String.mk (List.replicate 3 '/')) =
      String.mk (List.replicate 2 '/') ∧
    getWorkingFilePathStep (fun _ => 0) testState none 0 0 =
      (GWOutcome.errored (RErr.notFound "File path not provided"), testState) := by
  refine ⟨normalization_contract.1 (DEFAULT_CONFIG 4) "a/../b" rfl, ?_, ?_⟩
  · exact normalization_contract.2.1 (DEFAULT_CONFIG 4) 3 (by omega)
  · exact (normalization_contract.2.2 (fun _ => 0) testState 0 0 rfl).1

section BackpressureLemmas

/-- The invariant of the backpressure scenario: not shutting down and every
cache shard empty (so every lookup misses and the shards stay empty). -/
def ArrivalInv (st : ResolverState) : Prop :=
  st.isShuttingDown = false ∧ ∀ s ∈ st.cache.shards, s = []

/-- Whether an arrival outcome is the overload rejection. -/
def isOverloadOutcome : GWOutcome → Bool
  | GWOutcome.errored e => isOverloadedError e
  | _ => false

theorem isPrefixOf_append_self (l₁ l₂ : List Char) :
    l₁.isPrefixOf (l₁ ++ l₂) = true := by
  induction l₁ with
  | nil => simp [List.isPrefixOf]
  | cons c l ih => simp [List.isPrefixOf, ih]

theorem overloadMsg_isPrefix (s : String) :
    "System overloaded".data.isPrefixOf
      ("System overloaded: Too many pending requests (" ++ s ++ ")").data = true := by
  have hdata : ("System overloaded: Too many pending requests (" ++ s ++ ")").data =
      "System overloaded".data ++
        (": Too many pending requests (".data ++ (s.data ++ ")".data)) := by
    have h1 : ∀ a b : String, (a ++ b).data = a.data ++ b.data := by
      intro a b
      rfl
    rw [h1, h1]
    have h2 : ("System overloaded: Too many pending requests (" : String).data =
        "System overloaded".data ++ ": Too many pending requests (".data := by decide
    rw [h2]
    simp [List.append_assoc]
  rw [hdata]
  exact isPrefixOf_append_self _ _

theorem cacheGet_all_empty (hash : String → Nat) (c : CacheState) (k : String)
    (now : Int) (h : ∀ s ∈ c.shards, s = []) :
    SharedPathCache.get hash c k now =
      (none, { c with stats := { c.stats with m := c.stats.m + 1 } }) := by
  rw [SharedPathCache.get]
  have hsh : c.shards.getD (SharedPathCache.getShard hash k) [] = [] := by
    by_cases hlt : SharedPathCache.getShard hash k < c.shards.length
    · exact h _ (getD_mem_of_lt [] _ _ hlt)
    · exact List.getD_eq_default _ _ (by omega)
  rw [hsh]
  rfl

/-- On a cache-empty state the synchronous prefix reduces to the throttle
step over the miss-bumped state. -/
theorem getW_miss_empty (hash : String → Nat) (st : ResolverState) (p : String)
    (priority now : Int) (hp : p ≠ "") (hsd : st.isShuttingDown = false)
    (hempty : ∀ s ∈ st.cache.shards, s = []) :
    getWorkingFilePathStep hash st (some p) priority now =
      throttleStep { st with cache := { st.cache with stats :=
        { st.cache.stats with m := st.cache.stats.m + 1 } } }
        (normalizePath st.config p) priority now := by
  rw [getWorkingFilePathStep]
  rw [if_neg (by rw [hsd]; simp)]
  rw [if_neg hp]
  dsimp only
  rw [cacheGet_all_empty hash st.cache (normalizePath st.config p) now hempty]

/-- Exhaustive characterization of one arrival against a never-responding
filesystem: it either starts processing (below the ceiling), is queued, or is
rejected as overloaded; the cache shards stay empty and the config is
untouched. -/
theorem arrivalStep_cases (hash : String → Nat) (st : ResolverState)
    (p : String) (priority now : Int) (hp : p ≠ "") (hinv : ArrivalInv st) :
    (arrivalStep hash st p priority now).2.config = st.config ∧
    ArrivalInv (arrivalStep hash st p priority now).2 ∧
    (((st.activeRequests : Int) < st.config.maxConcurrentChecks ∧
        isOverloadOutcome (arrivalStep hash st p priority now).1 = false ∧
        (arrivalStep hash st p priority now).2.activeRequests =
          st.activeRequests + 1 ∧
        (arrivalStep hash st p priority now).2.pendingRequests =
          st.pendingRequests) ∨
      ((st.activeRequests : Int) ≥ st.config.maxConcurrentChecks ∧
        (st.pendingRequests.length : Int) < st.config.maxPendingRequests ∧
        isOverloadOutcome (arrivalStep hash st p priority now).1 = false ∧
        (arrivalStep hash st p priority now).2.activeRequests =
          st.activeRequests ∧
        (arrivalStep hash st p priority now).2.pendingRequests.length =
          st.pendingRequests.length + 1) ∨
      ((st.activeRequests : Int) ≥ st.config.maxConcurrentChecks ∧
        (st.pendingRequests.length : Int) ≥ st.config.maxPendingRequests ∧
        isOverloadOutcome (arrivalStep hash st p priority now).1 = true ∧
        (arrivalStep hash st p priority now).2.activeRequests =
          st.activeRequests ∧
        (arrivalStep hash st p priority now).2.pendingRequests =
          st.pendingRequests)) := by
  have hstep := getW_miss_empty hash st p priority now hp hinv.1 hinv.2
  rw [arrivalStep, hstep]
  rw [throttleStep]
  by_cases hceil : (st.activeRequests : Int) ≥ st.config.maxConcurrentChecks
  · rw [if_pos (by dsimp only; exact hceil)]
    by_cases hq : (st.pendingRequests.length : Int) ≥ st.config.maxPendingRequests
    · rw [if_pos (by dsimp only; exact hq)]
      refine ⟨rfl, ⟨hinv.1, hinv.2⟩, Or.inr (Or.inr ⟨hceil, hq, ?_, rfl, rfl⟩)⟩
      rw [isOverloadOutcome, isOverloadedError]
      exact overloadMsg_isPrefix _
    · rw [if_neg (by dsimp only; exact hq)]
      refine ⟨rfl, ⟨hinv.1, hinv.2⟩, Or.inr (Or.inl ⟨hceil, by omega, rfl, rfl, ?_⟩)⟩
      simp
  · rw [if_neg (by dsimp only; exact hceil)]
    exact ⟨rfl, ⟨hinv.1, hinv.2⟩, Or.inl ⟨by omega, rfl, rfl, rfl⟩⟩

/-- Counting invariant of the arrival sequence: as long as no arrival was
rejected as overloaded, each arrival adds one to `active + queued`, while
`active` stays at most the ceiling and the queue at most its capacity. -/
theorem simulate_no_overload (hash : String → Nat) (now : Int) :
    ∀ (paths : List String) (st : ResolverState),
      ArrivalInv st → (∀ p ∈ paths, p ≠ "") →
      (st.activeRequests : Int) ≤ st.config.maxConcurrentChecks →
      (st.pendingRequests.length : Int) ≤ st.config.maxPendingRequests →
      (simulateArrivals hash now st paths).2.config = st.config ∧
      ((∀ o ∈ (simulateArrivals hash now st paths).1,
          isOverloadOutcome o = false) →
        ((simulateArrivals hash now st paths).2.activeRequests +
            (simulateArrivals hash now st paths).2.pendingRequests.length =
          st.activeRequests + st.pendingRequests.length + paths.length) ∧
        ((simulateArrivals hash now st paths).2.activeRequests : Int) ≤
          st.config.maxConcurrentChecks ∧
        (((simulateArrivals hash now st paths).2.pendingRequests.length : Int) ≤
          st.config.maxPendingRequests)) := by
  intro paths
  induction paths with
  | nil =>
    intro st hinv _ hact hlen
    exact ⟨rfl, fun _ => ⟨by simp [simulateArrivals], hact, hlen⟩⟩
  | cons p rest ih =>
    intro st hinv hps hact hlen
    have hp : p ≠ "" := hps p (by simp)
    have hrest : ∀ q ∈ rest, q ≠ "" := fun q hq => hps q (by simp [hq])
    obtain ⟨hcfg, hinv', hcases⟩ := arrivalStep_cases hash st p 0 now hp hinv
    rcases hcases with ⟨hlt, hno, hact', hpend'⟩ | ⟨hge, hlt, hno, hact', hlen'⟩ |
      ⟨hge, hq, hyes, hact', hpend'⟩
    · have hact₂ : ((arrivalStep hash st p 0 now).2.activeRequests : Int) ≤
          (arrivalStep hash st p 0 now).2.config.maxConcurrentChecks := by
        rw [hact', hcfg]
        push_cast
        omega
      have hlen₂ : (((arrivalStep hash st p 0 now).2.pendingRequests.length : Int)) ≤
          (arrivalStep hash st p 0 now).2.config.maxPendingRequests := by
        rw [hpend', hcfg]
        exact hlen
      obtain ⟨ihcfg, ihrest⟩ := ih (arrivalStep hash st p 0 now).2 hinv' hrest hact₂ hlen₂
      constructor
      · rw [simulateArrivals]
        dsimp only
        rw [ihcfg, hcfg]
      · intro hnone
        rw [simulateArrivals] at hnone ⊢
        dsimp only at hnone ⊢
        have hnone' : ∀ o ∈ (simulateArrivals hash now
            (arrivalStep hash st p 0 now).2 rest).1, isOverloadOutcome o = false := by
          intro o ho
          exact hnone o (by simp [ho])
        obtain ⟨hsum, hbound1, hbound2⟩ := ihrest hnone'
        rw [hcfg] at hbound1 hbound2
        refine ⟨?_, hbound1, hbound2⟩
        rw [hsum, hact', hpend']
        simp [List.length_cons]
        omega
    · have hact₂ : ((arrivalStep hash st p 0 now).2.activeRequests : Int) ≤
          (arrivalStep hash st p 0 now).2.config.maxConcurrentChecks := by
        rw [hact', hcfg]
        exact hact
      have hlen₂ : (((arrivalStep hash st p 0 now).2.pendingRequests.length : Int)) ≤
          (arrivalStep hash st p 0 now).2.config.maxPendingRequests := by
        rw [hlen', hcfg]
        push_cast
        omega
      obtain ⟨ihcfg, ihrest⟩ := ih (arrivalStep hash st p 0 now).2 hinv' hrest hact₂ hlen₂
      constructor
      · rw [simulateArrivals]
        dsimp only
        rw [ihcfg, hcfg]
      · intro hnone
        rw [simulateArrivals] at hnone ⊢
        dsimp only at hnone ⊢
        have hnone' : ∀ o ∈ (simulateArrivals hash now
            (arrivalStep hash st p 0 now).2 rest).1, isOverloadOutcome o = false := by
          intro o ho
          exact hnone o (by simp [ho])
        obtain ⟨hsum, hbound1, hbound2⟩ := ihrest hnone'
        rw [hcfg] at hbound1 hbound2
        refine ⟨?_, hbound1, hbound2⟩
        rw [hsum, hact', hlen']
        simp [List.length_cons]
        omega
    · have hact₂ : ((arrivalStep hash st p 0 now).2.activeRequests : Int) ≤
          (arrivalStep hash st p 0 now).2.config.maxConcurrentChecks := by
        rw [hact', hcfg]
        exact hact
      have hlen₂ : (((arrivalStep hash st p 0 now).2.pendingRequests.length : Int)) ≤
          (arrivalStep hash st p 0 now).2.config.maxPendingRequests := by
        rw [hpend', hcfg]
        exact hlen
      obtain ⟨ihcfg, _⟩ := ih (arrivalStep hash st p 0 now).2 hinv' hrest hact₂ hlen₂
      constructor
      · rw [simulateArrivals]
        dsimp only
        rw [ihcfg, hcfg]
      · intro hnone
        exfalso
        have hfirst : isOverloadOutcome (arrivalStep hash st p 0 now).1 = false := by
          apply hnone
          rw [simulateArrivals]
          exact List.mem_cons_self _ _
        rw [hyes] at hfirst
        exact Bool.noConfusion hfirst

end BackpressureLemmas

theorem throttleStep_bound (st : ResolverState) (np : String) (priority now : Int)
    (h : (st.pendingRequests.length : Int) ≤ st.config.maxPendingRequests) :
    ((throttleStep st np priority now).2.pendingRequests.length : Int) ≤
      st.config.maxPendingRequests := by
  rw [throttleStep]
  by_cases h1 : (st.activeRequests : Int) ≥ st.config.maxConcurrentChecks
  · rw [if_pos h1]
    by_cases h2 : (st.pendingRequests.length : Int) ≥ st.config.maxPendingRequests
    · rw [if_pos h2]
      exact h
    · rw [if_neg h2]
      dsimp only
      simp only [List.length_append, List.length_cons, List.length_nil]
      push_cast
      omega
  · rw [if_neg h1]
    exact h

/-- C3 (admission backpressure): a cache-missing call at the concurrency
ceiling is queued when the pending queue has room and otherwise fails with the
Overloaded error, incrementing the rejection counter and leaving the queue
unchanged; the pending queue never grows beyond `maxPendingRequests`; and
among `maxConcurrentChecks + maxPendingRequests + 1` simultaneous
cache-missing calls against a never-responding filesystem at least one fails
with the Overloaded error. -/
theorem admission_backpressure :
    (∀ (hash : String → Nat) (st : ResolverState) (p : String) (priority now : Int),
      st.isShuttingDown = false → p ≠ "" →
      (SharedPathCache.get hash st.cache (normalizePath st.config p) now).1 = none →
      (st.activeRequests : Int) ≥ st.config.maxConcurrentChecks →
      (((st.pendingRequests.length : Int) < st.config.maxPendingRequests →
        (getWorkingFilePathStep hash st (some p) priority now).1 = GWOutcome.queued ∧
        (getWorkingFilePathStep hash st (some p) priority now).2.pendingRequests =
          st.pendingRequests ++
            [{ path := normalizePath st.config p, priority := priority, timestamp := now }] ∧
        (getWorkingFilePathStep hash st (some p) priority
          now).2.requestsRejectedDueToOverload =
          st.requestsRejectedDueToOverload) ∧
      ((st.pendingRequests.length : Int) ≥ st.config.maxPendingRequests →
        isOverloadOutcome (getWorkingFilePathStep hash st (some p) priority now).1 =
          true ∧
        (getWorkingFilePathStep hash st (some p) priority now).2.pendingRequests =
          st.pendingRequests ∧
        (getWorkingFilePathStep hash st (some p) priority
          now).2.requestsRejectedDueToOverload =
          st.requestsRejectedDueToOverload + 1))) ∧
    (∀ (hash : String → Nat) (st : ResolverState) (path : Option String)
      (priority now : Int),
      (st.pendingRequests.length : Int) ≤ st.config.maxPendingRequests →
      (((getWorkingFilePathStep hash st path priority now).2.pendingRequests.length :
        Int) ≤ st.config.maxPendingRequests)) ∧
    (∀ (hash : String → Nat) (now : Int) (st : ResolverState) (paths : List String),
      st.isShuttingDown = false → (∀ s ∈ st.cache.shards, s = []) →
      st.activeRequests = 0 → st.pendingRequests = [] →
      0 ≤ st.config.maxConcurrentChecks → 0 ≤ st.config.maxPendingRequests →
      (paths.length : Int) = st.config.maxConcurrentChecks +
        st.config.maxPendingRequests + 1 →
      (∀ p ∈ paths, p ≠ "") →
      ∃ o ∈ (simulateArrivals hash now st paths).1, isOverloadOutcome o = true) := by
  refine ⟨?_, ?_, ?_⟩
  · intro hash st p priority now hsd hp hmiss hceil
    rw [getWorkingFilePathStep]
    rw [if_neg (by rw [hsd]; simp)]
    rw [if_neg hp]
    dsimp only
    simp only [hmiss]
    rw [throttleStep]
    rw [if_pos (by dsimp only; exact hceil)]
    constructor
    · intro hlt
      rw [if_neg (by dsimp only; omega)]
      exact ⟨rfl, rfl, rfl⟩
    · intro hge
      rw [if_pos (by dsimp only; exact hge)]
      refine ⟨?_, rfl, rfl⟩
      rw [isOverloadOutcome, isOverloadedError]
      exact overloadMsg_isPrefix _
  · intro hash st path priority now hbound
    cases path with
    | none =>
      rw [getWorkingFilePathStep]
      by_cases hsd : st.isShuttingDown
      · rw [if_pos hsd]
        exact hbound
      · rw [if_neg hsd]
        exact hbound
    | some p =>
      rw [getWorkingFilePathStep]
      by_cases hsd : st.isShuttingDown
      · rw [if_pos hsd]
        exact hbound
      · rw [if_neg hsd]
        by_cases hp : p = ""
        · rw [if_pos hp]
          exact hbound
        · rw [if_neg hp]
          dsimp only
          cases hg : (SharedPathCache.get hash st.cache
              (normalizePath st.config p) now).1 with
          | some cp =>
            simp only [hg]
            by_cases hcp : cp ≠ ""
            · rw [if_pos hcp]
              exact hbound
            · rw [if_neg hcp]
              exact throttleStep_bound _ _ _ _ hbound
          | none =>
            simp only [hg]
            exact throttleStep_bound _ _ _ _ hbound
  · intro hash now st paths hsd hempty hact0 hpend0 hmc hmp hlen hps
    by_contra hno
    push_neg at hno
    have hnone : ∀ o ∈ (simulateArrivals hash now st paths).1,
        isOverloadOutcome o = false := by
      intro o ho
      cases hb : isOverloadOutcome o with
      | false => rfl
      | true => exact absurd hb (hno o ho)
    obtain ⟨hcfg, himp⟩ := simulate_no_overload hash now paths st ⟨hsd, hempty⟩ hps
      (by rw [hact0]; simpa using hmc)
      (by rw [hpend0]; simpa using hmp)
    obtain ⟨hsum, hb1, hb2⟩ := himp hnone
    rw [hact0, hpend0] at hsum
    simp only [List.length_nil] at hsum
    have hsum' : (((simulateArrivals hash now st paths).2.activeRequests : Int) +
        ((simulateArrivals hash now st paths).2.pendingRequests.length : Int)) =
        (paths.length : Int) := by
      simp only [Nat.zero_add] at hsum
      exact_mod_cast hsum
    omega

/-- A concrete state for the backpressure scenario: `maxConcurrentChecks = 2`,
`maxPendingRequests = 1`. -/
def backpressureState : ResolverState :=
  { testState with config :=
      { DEFAULT_CONFIG 4 with
        maxConcurrentChecks := 2
        maxPendingRequests := 1 } }

/-- Witness for C3: four simultaneous cache-missing arrivals with
`maxConcurrentChecks = 2` and `maxPendingRequests = 1` produce at least one
Overloaded rejection, and a call at the ceiling with a full queue is rejected
with the overload error. -/
theorem admission_backpressure_witness :
    (∃ o ∈ (simulateArrivals (fun _ => 0) 0 backpressureState
      ["a", "b", "c", "d"]).1, isOverloadOutcome o = true) ∧
    isOverloadOutcome (getWorkingFilePathStep (fun _ => 0)
      { backpressureState with
        activeRequests := 2
        pendingRequests := [{ path := "q", priority := 0, timestamp := 0 }] }
      (some "a") 0 0).1 = true := by
  constructor
  · refine admission_backpressure.2.2 (fun _ => 0) 0 backpressureState
      ["a", "b", "c", "d"] rfl ?_ rfl rfl (by decide) (by decide) (by decide)
      (by decide)
    intro s hs
    exact List.eq_of_mem_replicate hs
  · refine (admission_backpressure.1 (fun _ => 0)
      { backpressureState with
        activeRequests := 2
        pendingRequests := [{ path := "q", priority := 0, timestamp := 0 }] }
      "a" 0 0 rfl (by decide) (by decide) (by decide)).2 (by decide) |>.1

section CleanupLemmas

theorem jsGet_foldl_delete_none (k : String) :
    ∀ (ks : List String) (m : JsMap), jsGet m k = none →
      jsGet (ks.foldl (fun m k' => jsDelete m k') m) k = none := by
  intro ks
  induction ks with
  | nil => intro m h; exact h
  | cons k₀ rest ih =>
    intro m h
    rw [List.foldl_cons]
    exact ih _ (jsGet_delete_none_of_none m k₀ k h)

theorem foldl_delete_wf (ks : List String) (m : JsMap) (hwf : JsMapWF m) :
    JsMapWF (ks.foldl (fun m k' => jsDelete m k') m) := by
  induction ks generalizing m with
  | nil => exact hwf
  | cons k₀ rest ih =>
    rw [List.foldl_cons]
    exact ih _ (jsDelete_wf m k₀ hwf)

theorem jsGet_foldl_delete_mem (k : String) :
    ∀ (ks : List String) (m : JsMap), JsMapWF m → k ∈ ks →
      jsGet (ks.foldl (fun m k' => jsDelete m k') m) k = none := by
  intro ks
  induction ks with
  | nil => intro m _ h; simp at h
  | cons k₀ rest ih =>
    intro m hwf hk
    rw [List.foldl_cons]
    by_cases hkk : k = k₀
    · subst hkk
      exact jsGet_foldl_delete_none k rest _ (jsGet_delete_self m k hwf)
    · have : k ∈ rest := by
        rcases List.mem_cons.mp hk with h | h
        · exact absurd h hkk
        · exact h
      exact ih _ (jsDelete_wf m k₀ hwf) this

theorem jsGet_mem_of_some (m : JsMap) (k : String) (v : CEntry)
    (h : jsGet m k = some v) : (k, v) ∈ m := by
  induction m with
  | nil => simp [jsGet] at h
  | cons hd tl ih =>
    obtain ⟨k', v'⟩ := hd
    by_cases hk : k' = k
    · subst hk
      simp [jsGet] at h
      simp [h]
    · simp [jsGet, hk] at h
      simp [ih h]

theorem jsGet_foldl_delete_le (k : String) :
    ∀ (ks : List String) (m : JsMap), JsMapWF m →
      jsGet (ks.foldl (fun m k' => jsDelete m k') m) k = none ∨
      jsGet (ks.foldl (fun m k' => jsDelete m k') m) k = jsGet m k := by
  intro ks
  induction ks with
  | nil => intro m _; right; rfl
  | cons k₀ rest ih =>
    intro m hwf
    rw [List.foldl_cons]
    by_cases hkk : k = k₀
    · subst hkk
      left
      exact jsGet_foldl_delete_none k rest _ (jsGet_delete_self m k hwf)
    · rcases ih (jsDelete m k₀) (jsDelete_wf m k₀ hwf) with h | h
      · left; exact h
      · right
        rw [h]
        exact jsGet_delete_ne m k₀ k hkk

/-- The per-shard cleanup pass: frame facts, absence preservation, the
expired-if-present invariant, and removal when the pass hits the shard. -/
theorem cleanupShardPass_shards_length (now : Int) (acc : CacheState) (idx : Nat) :
    (SharedPathCache.cleanupShardPass now acc idx).shards.length =
      acc.shards.length := by
  rw [SharedPathCache.cleanupShardPass]
  exact List.length_set _ _ _

theorem cleanupShardPass_other (now : Int) (acc : CacheState) (idx i : Nat)
    (h : i ≠ idx) :
    (SharedPathCache.cleanupShardPass now acc idx).shards.getD i [] =
      acc.shards.getD i [] := by
  rw [SharedPathCache.cleanupShardPass]
  exact getD_set_ne _ _ _ _ _ h

theorem cleanupShardPass_wf (now : Int) (acc : CacheState) (idx : Nat)
    (hwf : CacheWF acc) : CacheWF (SharedPathCache.cleanupShardPass now acc idx) := by
  intro s hs
  rw [SharedPathCache.cleanupShardPass] at hs
  rcases List.mem_or_eq_of_mem_set hs with hmem | heq
  · exact hwf s hmem
  · subst heq
    exact foldl_delete_wf _ _ (shard_wf_of_cacheWF acc idx hwf)

theorem cleanupShardPass_absent (now : Int) (acc : CacheState) (idx i : Nat)
    (k : String) (h : jsGet (acc.shards.getD i []) k = none) :
    jsGet ((SharedPathCache.cleanupShardPass now acc idx).shards.getD i []) k =
      none := by
  by_cases hi : i = idx
  · subst hi
    rw [SharedPathCache.cleanupShardPass]
    by_cases hlt : i < acc.shards.length
    · rw [getD_set_self _ _ _ _ hlt]
      exact jsGet_foldl_delete_none k _ _ h
    · rw [List.getD_eq_default _ _ (by rw [List.length_set]; omega)]
      rfl
  · rw [cleanupShardPass_other now acc idx i hi]
    exact h

theorem cleanupShardPass_hit (now : Int) (acc : CacheState) (i : Nat)
    (k : String) (hwf : CacheWF acc)
    (hq : ∀ en, jsGet (acc.shards.getD i []) k = some en → now > en.e) :
    jsGet ((SharedPathCache.cleanupShardPass now acc i).shards.getD i []) k =
      none := by
  rw [SharedPathCache.cleanupShardPass]
  by_cases hlt : i < acc.shards.length
  · rw [getD_set_self _ _ _ _ hlt]
    cases hk : jsGet (acc.shards.getD i []) k with
    | none => exact jsGet_foldl_delete_none k _ _ hk
    | some en =>
      apply jsGet_foldl_delete_mem k _ _ (shard_wf_of_cacheWF acc i hwf)
      have hmem : (k, en) ∈ acc.shards.getD i [] := jsGet_mem_of_some _ _ _ hk
      have hfil : (k, en) ∈ (acc.shards.getD i []).filter (fun kv => now > kv.2.e) := by
        rw [List.mem_filter]
        exact ⟨hmem, by simpa using hq en hk⟩
      exact List.mem_map_of_mem Prod.fst hfil
  · rw [List.getD_eq_default _ _ (by rw [List.length_set]; omega)]
    rfl

theorem cleanupShardPass_expired_inv (now : Int) (acc : CacheState) (idx i : Nat)
    (k : String) (hwf : CacheWF acc)
    (hq : ∀ en, jsGet (acc.shards.getD i []) k = some en → now > en.e) :
    ∀ en, jsGet ((SharedPathCache.cleanupShardPass now acc idx).shards.getD i []) k =
      some en → now > en.e := by
  intro en hen
  by_cases hi : i = idx
  · subst hi
    rw [SharedPathCache.cleanupShardPass] at hen
    by_cases hlt : i < acc.shards.length
    · rw [getD_set_self _ _ _ _ hlt] at hen
      rcases jsGet_foldl_delete_le k _ _ (shard_wf_of_cacheWF acc i hwf) with h | h
      · rw [h] at hen
        exact Option.noConfusion hen
      · rw [h] at hen
        exact hq en hen
    · rw [List.getD_eq_default _ _ (by rw [List.length_set]; omega)] at hen
      simp [jsGet] at hen
  · rw [cleanupShardPass_other now acc idx i hi] at hen
    exact hq en hen

/-- The cleanup fold: once some scanned index hits the entry's shard, the
expired entry is gone at the end of the cycle. -/
theorem cleanup_fold_removes (rnd : Nat → Nat) (now : Int) (i : Nat) (k : String) :
    ∀ (l : List Nat) (c : CacheState), CacheWF c →
      (∀ en, jsGet (c.shards.getD i []) k = some en → now > en.e) →
      (∃ j ∈ l, rnd j % SharedPathCache.CACHE_SHARDS = i) →
      jsGet ((l.foldl (fun acc j => SharedPathCache.cleanupShardPass now acc
        (rnd j % SharedPathCache.CACHE_SHARDS)) c).shards.getD i []) k = none := by
  have habs : ∀ (l : List Nat) (c : CacheState),
      jsGet (c.shards.getD i []) k = none →
      jsGet ((l.foldl (fun acc j => SharedPathCache.cleanupShardPass now acc
        (rnd j % SharedPathCache.CACHE_SHARDS)) c).shards.getD i []) k = none := by
    intro l
    induction l with
    | nil => intro c h; exact h
    | cons j rest ih =>
      intro c h
      rw [List.foldl_cons]
      exact ih _ (cleanupShardPass_absent now c _ i k h)
  intro l
  induction l with
  | nil =>
    intro c _ _ hex
    simp at hex
  | cons j rest ih =>
    intro c hwf hq hex
    rw [List.foldl_cons]
    by_cases hj : rnd j % SharedPathCache.CACHE_SHARDS = i
    · rw [hj]
      apply habs rest
      exact cleanupShardPass_hit now c i k hwf hq
    · apply ih _ (cleanupShardPass_wf now c _ hwf)
        (cleanupShardPass_expired_inv now c _ i k hwf hq)
      rcases hex with ⟨j', hj', hj'eq⟩
      rcases List.mem_cons.mp hj' with h | h
      · subst h
        exact absurd hj'eq hj
      · exact ⟨j', h, hj'eq⟩

end CleanupLemmas

/-- C9 amended (entry lifetime): the background cleanup cycle scans only 16
randomly sampled shard indices, so an expired entry is guaranteed removed by a
cleanup cycle only when one of that cycle's sampled indices hits the entry's
shard; an expired entry in a shard the cycle does not sample survives the
cycle, so an entry can outlive its TTL plus one (or any number of) cleanup
cycles. -/
theorem entry_lifetime_cleanup (rnd : Nat → Nat) (c : CacheState) (now e : Int)
    (i : Nat) (k p : String) (hwf : CacheWF c)
    (hget : jsGet (c.shards.getD i []) k = some ⟨p, e⟩) (hexp : now > e)
    (hscan : ∃ j ∈ List.range 16, rnd j % SharedPathCache.CACHE_SHARDS = i) :
    jsGet ((SharedPathCache.cleanup rnd c now).shards.getD i []) k = none := by
  rw [SharedPathCache.cleanup]
  apply cleanup_fold_removes rnd now i k (List.range 16) c hwf
  · intro en hen
    rw [hget] at hen
    have : en = ⟨p, e⟩ := (Option.some.inj hen).symm
    rw [this]
    exact hexp
  · exact hscan

/-- Counterexample to C9 as stated: an expired entry (expiry 10) in shard 1
survives a full cleanup cycle run at time 1000000 — far beyond its TTL plus
one 15000 ms cleanup interval — because the cycle's 16 sampled indices all hit
shard 0. -/
theorem entry_lifetime_counterexample :
    jsGet ((SharedPathCache.cleanup (fun _ => 0)
      { shards := (List.replicate 128 []).set 1 [("a", ⟨"p", 10⟩)],
        stats := ⟨0, 0, 0⟩ } 1000000).shards.getD 1 []) "a" =
      some ⟨"p", 10⟩ ∧
    (1000000 : Int) > 10 + 15000 := by
  exact ⟨by rfl, by decide⟩

/-- Witness for C9's amended statement: the same expired entry is removed by
a cleanup cycle whose sampled indices do hit shard 1. -/
theorem entry_lifetime_cleanup_witness :
    jsGet ((SharedPathCache.cleanup (fun _ => 1)
      { shards := (List.replicate 128 []).set 1 [("a", ⟨"p", 10⟩)],
        stats := ⟨0, 0, 0⟩ } 1000000).shards.getD 1 []) "a" = none := by
  apply entry_lifetime_cleanup (fun _ => 1)
    { shards := (List.replicate 128 []).set 1 [("a", ⟨"p", 10⟩)],
      stats := ⟨0, 0, 0⟩ } 1000000 10 1 "a" "p"
  · intro s hs
    rcases List.mem_or_eq_of_mem_set hs with hmem | heq
    · rw [List.eq_of_mem_replicate hmem]
      exact jsMapWF_nil
    · subst heq
      simp [JsMapWF, keysOf]
  · decide
  · decide
  · exact ⟨0, by decide, by decide⟩

/-! ## `FileWorkerPool` task bookkeeping (lines 195-477)

Only the bookkeeping relevant to timeouts and late replies is embedded: the
`workerStatus` byte array (a `Uint8Array`, so decrements wrap at 0), the
`activeTasks` slot array, and the task-id counter.  The promise callbacks
stored in a slot are embedded by returning the settlement (if any) that the
event delivers. -/

/-- One `activeTasks` slot: `{ workerId, taskId }` (the stored
`resolve`/`reject` callbacks are embedded via the returned `Settlement`). -/
structure TaskSlot where
  workerId : Nat
  taskId : Nat
deriving DecidableEq, Repr

/-- The bookkeeping state of `FileWorkerPool`. -/
structure PoolState where
  workerStatus : List Nat
  activeTasks : List (Option TaskSlot)
  nextTaskId : Nat
deriving DecidableEq, Repr

/-- `Uint8Array` element increment: wraps at 256. -/
def uint8Inc (n : Nat) : Nat := (n + 1) % 256

/-- `Uint8Array` element decrement: `0 - 1` wraps to `255`. -/
def uint8Dec (n : Nat) : Nat := (n + 255) % 256

/-- A settled promise of one `checkPath` call. -/
inductive Settlement where
  | resolved (path : String)
  | rejectedWith (msg : String)
deriving DecidableEq, Repr

/-- A worker reply message: `{ taskId, path }` or `{ taskId, error }`. -/
inductive WorkerReply where
  | pathMsg (taskId : Nat) (path : String)
  | errorMsg (taskId : Nat) (err : String)
deriving DecidableEq, Repr

/-- `findTaskIndex` (lines 307-315): linear scan for the slot holding the
(workerId, taskId) pair. -/
def findTaskIndex (pool : PoolState) (workerId taskId : Nat) : Option Nat :=
  pool.activeTasks.findIdx? (fun s =>
    match s with
    | some t => t.workerId == workerId && t.taskId == taskId
    | none => false)

/-- `assignTaskToWorker` (lines 375-432), bookkeeping part: allocate a task id
(wrapping past 1000000), store the task in the first free slot (or append),
and increment the worker's in-flight count. -/
def assignTaskToWorker (pool : PoolState) (workerId : Nat) : PoolState :=
  let taskId := pool.nextTaskId
  let next := if pool.nextTaskId + 1 > 1000000 then 0 else pool.nextTaskId + 1
  let ws := pool.workerStatus.set workerId
    (uint8Inc (pool.workerStatus.getD workerId 0))
  match pool.activeTasks.findIdx? (fun s => s.isNone) with
  | some i =>
    { workerStatus := ws
      activeTasks := pool.activeTasks.set i (some ⟨workerId, taskId⟩)
      nextTaskId := next }
  | none =>
    { workerStatus := ws
      activeTasks := pool.activeTasks ++ [some ⟨workerId, taskId⟩]
      nextTaskId := next }

/-- The timeout callback (lines 404-412): if the task is still in its slot,
reject the caller with the timeout error, clear the slot and decrement the
worker's in-flight count; otherwise do nothing. -/
def timeoutFire (pool : PoolState) (workerId taskId : Nat) (workerTimeout : Int) :
    PoolState × Option Settlement :=
  match findTaskIndex pool workerId taskId with
  | some i =>
    let pool' : PoolState :=
      { pool with
        activeTasks := pool.activeTasks.set i none
        workerStatus := pool.workerStatus.set workerId
          (uint8Dec (pool.workerStatus.getD workerId 0)) }
    (pool', some (Settlement.rejectedWith
      ("Worker task timed out after " ++ toString workerTimeout ++ "ms")))
  | none => (pool, none)

/-- `createWorkerMessageHandler` (lines 274-304): the handler decrements the
worker's in-flight count FIRST ("Immediately decrement task count for this
worker"), then looks the task up; when the task is gone (e.g. its timeout
already fired), it returns early — without settling anything and without
undoing the decrement. -/
def workerMessageHandler (pool : PoolState) (workerId : Nat)
    (result : WorkerReply) : PoolState × Option Settlement :=
  let dec := uint8Dec (pool.workerStatus.getD workerId 0)
  let pool₁ := { pool with workerStatus := pool.workerStatus.set workerId dec }
  let tid := match result with
    | WorkerReply.pathMsg t _ => t
    | WorkerReply.errorMsg t _ => t
  match findTaskIndex pool₁ workerId tid with
  | none => (pool₁, none)
  | some i =>
    let settle := match result with
      | WorkerReply.errorMsg _ m => some (Settlement.rejectedWith m)
      | WorkerReply.pathMsg _ p => some (Settlement.resolved p)
    ({ pool₁ with activeTasks := pool₁.activeTasks.set i none }, settle)

/-- C8 evaluated at the failing input (code bug): one worker, one task.  After
`assignTaskToWorker` the in-flight count is 1; the timeout fires (count back to
0, caller rejected); then the worker's late reply arrives.  The late reply is
indeed discarded without settling any promise — but the handler has already
decremented `workerStatus` before discovering the task is gone, so the count
is decremented twice in total for the task and the `Uint8Array` wraps from 0
to 255 (the Uint8 image of a negative counter), contradicting the claim that
the counter is decremented exactly once and never drops below zero. -/
theorem late_reply_double_decrement :
    (assignTaskToWorker ⟨[0], [none], 0⟩ 0).workerStatus = [1] ∧
    (timeoutFire (assignTaskToWorker ⟨[0], [none], 0⟩ 0) 0 0 5000).2 =
      some (Settlement.rejectedWith "Worker task timed out after 5000ms") ∧
    (timeoutFire (assignTaskToWorker ⟨[0], [none], 0⟩ 0) 0 0 5000).1.workerStatus =
      [0] ∧
    (workerMessageHandler (timeoutFire (assignTaskToWorker ⟨[0], [none], 0⟩ 0)
      0 0 5000).1 0 (WorkerReply.pathMsg 0 "x")).2 = none ∧
    (workerMessageHandler (timeoutFire (assignTaskToWorker ⟨[0], [none], 0⟩ 0)
      0 0 5000).1 0 (WorkerReply.pathMsg 0 "x")).1.workerStatus = [255] := by
  exact ⟨by rfl, by rfl, by rfl, by rfl, by rfl⟩
